import Mathlib

/-!
# Verification of the claude-api-minimal agent-driver core

Shallow embedding of the Python sources `src/claude_cli/integration.py` and
`src/claude_cli/session.py` (frame classification, tool correlation, result
aggregation, process supervision, session lifecycle), together with theorems
settling the frozen specification claims.

Modelling conventions:
* Parsed JSON values are modelled by the inductive `JVal`; Python floats are
  modelled as exact rationals (`Rat`), `datetime` instants as integers.
* `json.loads` is Python's standard library, external to the repository; a
  stream line is therefore modelled as `Option JVal` (`none` = the line fails
  JSON parsing, e.g. the literal line `not-json`).
* Python dict probing (`msg.get(...)`) is modelled by total lookups returning
  `Option JVal`; frames whose probed sub-values have a shape on which the
  Python code would raise (e.g. iterating a non-list `content`) are outside
  the modelled well-formed-frame domain and are never used as evidence.
* Logging and the exact text of user-facing error messages are elided; error
  values keep the constructor-level classification the code performs.
-/

/-- A parsed JSON value, as produced by `json.loads`.  Numbers are modelled
as exact rationals. -/
inductive JVal : Type where
  | s : String → JVal
  | n : Rat → JVal
  | b : Bool → JVal
  | null : JVal
  | arr : List JVal → JVal
  | obj : List (String × JVal) → JVal

mutual

def decJVal : (x y : JVal) → Decidable (x = y)
  | .null, .null => .isTrue rfl
  | .s a, .s b =>
      if hd : a = b then .isTrue (hd ▸ rfl)
      else .isFalse fun hc => hd (JVal.s.inj hc)
  | .n a, .n b =>
      if hd : a = b then .isTrue (hd ▸ rfl)
      else .isFalse fun hc => hd (JVal.n.inj hc)
  | .b a, .b b =>
      if hd : a = b then .isTrue (hd ▸ rfl)
      else .isFalse fun hc => hd (JVal.b.inj hc)
  | .arr a, .arr b =>
      match decJValList a b with
      | .isTrue hd => .isTrue (hd ▸ rfl)
      | .isFalse hd => .isFalse fun hc => hd (JVal.arr.inj hc)
  | .obj a, .obj b =>
      match decJValKVList a b with
      | .isTrue hd => .isTrue (hd ▸ rfl)
      | .isFalse hd => .isFalse fun hc => hd (JVal.obj.inj hc)
  | .s _, .n _ | .s _, .b _ | .s _, .null | .s _, .arr _ | .s _, .obj _
  | .n _, .s _ | .n _, .b _ | .n _, .null | .n _, .arr _ | .n _, .obj _
  | .b _, .s _ | .b _, .n _ | .b _, .null | .b _, .arr _ | .b _, .obj _
  | .null, .s _ | .null, .n _ | .null, .b _ | .null, .arr _ | .null, .obj _
  | .arr _, .s _ | .arr _, .n _ | .arr _, .b _ | .arr _, .null | .arr _, .obj _
  | .obj _, .s _ | .obj _, .n _ | .obj _, .b _ | .obj _, .null | .obj _, .arr _ =>
      .isFalse fun hc => nomatch hc

def decJValList : (xs ys : List JVal) → Decidable (xs = ys)
  | [], [] => .isTrue rfl
  | [], _ :: _ => .isFalse fun hc => nomatch hc
  | _ :: _, [] => .isFalse fun hc => nomatch hc
  | x :: xs, y :: ys =>
      match decJVal x y, decJValList xs ys with
      | .isTrue hh, .isTrue ht => .isTrue (hh ▸ ht ▸ rfl)
      | .isFalse hh, _ => .isFalse fun hc => hh (List.cons.inj hc).1
      | _, .isFalse ht => .isFalse fun hc => ht (List.cons.inj hc).2

def decJValKVList : (xs ys : List (String × JVal)) → Decidable (xs = ys)
  | [], [] => .isTrue rfl
  | [], _ :: _ => .isFalse fun hc => nomatch hc
  | _ :: _, [] => .isFalse fun hc => nomatch hc
  | (k, x) :: xs, (l, y) :: ys =>
      if hk : k = l then
        match decJVal x y, decJValKVList xs ys with
        | .isTrue hh, .isTrue ht => .isTrue (by rw [hk, hh, ht])
        | .isFalse hh, _ =>
            .isFalse fun hc => hh (congrArg Prod.snd (List.cons.inj hc).1)
        | _, .isFalse ht => .isFalse fun hc => ht (List.cons.inj hc).2
      else .isFalse fun hc => hk (congrArg Prod.fst (List.cons.inj hc).1)

end

instance : DecidableEq JVal := decJVal

/-- Field lookup inside a JSON object: `msg.get(key)` (returns `none` both
when the key is absent and when the value is not a JSON object). -/
def jget (v : JVal) (k : String) : Option JVal :=
  match v with
  | .obj kvs => kvs.lookup k
  | _ => none

/-- `msg.get(key, default)`. -/
def jgetD (v : JVal) (k : String) (d : JVal) : JVal :=
  (jget v k).getD d

/-- Python truthiness of a JSON value. -/
def jtruthy : JVal → Bool
  | .s t => t != ""
  | .n q => q != 0
  | .b bv => bv
  | .null => false
  | .arr l => !l.isEmpty
  | .obj l => !l.isEmpty

/-- Python truthiness of an optional value (`None` is falsy). -/
def otruthy : Option JVal → Bool
  | none => false
  | some v => jtruthy v

/-- Iterating a JSON value expected to be a list (`for block in content`);
outside the well-formed-frame domain (non-list values) it yields nothing. -/
def asList : JVal → List JVal
  | .arr xs => xs
  | _ => []

/-- Reading a JSON value expected to be a string; outside the well-formed
domain it yields `""`. -/
def getStrD : JVal → String
  | .s t => t
  | _ => ""

/-- `msg.get("type") == t`. -/
def isType (m : JVal) (t : String) : Bool :=
  jget m "type" == some (.s t)

mutual

/-- Approximate rendering of Python `str()` applied to a parsed-JSON value
(used by the source only in fallback branches; no claim depends on
the exact text). -/
def pyStr : JVal → String
  | .s t => t
  | .n q => toString q
  | .b true => "True"
  | .b false => "False"
  | .null => "None"
  | .arr xs => "[" ++ ", ".intercalate (pyStrList xs) ++ "]"
  | .obj kvs => "\x7b" ++ ", ".intercalate (pyStrKV kvs) ++ "\x7d"

def pyStrList : List JVal → List String
  | [] => []
  | x :: xs => pyStr x :: pyStrList xs

def pyStrKV : List (String × JVal) → List String
  | [] => []
  | (k, v) :: kvs => (k ++ ": " ++ pyStr v) :: pyStrKV kvs

end

/-- `msg.get("message", {}).get("content", [])`, iterated as a list of
content blocks. -/
def msgContent (msg : JVal) : List JVal :=
  asList (jgetD (jgetD msg "message" (.obj [])) "content" (.arr []))

/-- Reading a JSON value expected to be a number (costs, counts). -/
def getRatD : JVal → Rat
  | .n q => q
  | _ => 0

/-- `{"session_id": msg.get("session_id")}`. -/
def session_ctx (msg : JVal) : JVal :=
  .obj [("session_id", (jget msg "session_id").getD .null)]

/-- One semantic update, mirroring the `StreamUpdate` dataclass of
`integration.py`. -/
structure StreamUpdate where
  type : String
  content : Option JVal := none
  tool_calls : Option (List JVal) := none
  metadata : Option JVal := none
  timestamp : Option JVal := none
  session_context : Option JVal := none
  progress : Option JVal := none
  error_info : Option JVal := none
  execution_id : Option JVal := none
deriving DecidableEq

/-- `ClaudeProcessManager._parse_assistant_message`. -/
def parse_assistant_message (msg : JVal) : StreamUpdate :=
  let content_blocks := msgContent msg
  let text_content := content_blocks.filterMap (fun block =>
    if isType block "text" then some (getStrD (jgetD block "text" (.s ""))) else none)
  let tool_calls := content_blocks.filterMap (fun block =>
    if isType block "tool_use" then
      some (JVal.obj [("name", (jget block "name").getD .null),
                      ("input", jgetD block "input" (.obj [])),
                      ("id", (jget block "id").getD .null)])
    else none)
  { type := "assistant"
    content := if !text_content.isEmpty then some (.s ("\n".intercalate text_content)) else none
    tool_calls := if !tool_calls.isEmpty then some tool_calls else none
    timestamp := jget msg "timestamp"
    session_context := some (session_ctx msg)
    execution_id := jget msg "id" }

/-- `ClaudeProcessManager._parse_tool_result_message`. -/
def parse_tool_result_message (msg : JVal) : StreamUpdate :=
  let result := jgetD msg "result" (.obj [])
  let content : Option JVal :=
    match result with
    | .obj _ => jget result "content"
    | v => some (.s (pyStr v))
  { type := "tool_result"
    content := content
    metadata := some (.obj [("tool_use_id", (jget msg "tool_use_id").getD .null),
                            ("is_error", (jget result "is_error").getD (.b false)),
                            ("execution_time_ms", (jget result "execution_time_ms").getD .null)])
    timestamp := jget msg "timestamp"
    session_context := some (session_ctx msg)
    error_info := if otruthy (jget result "is_error") then
        some (.obj [("message", content.getD .null)])
      else none }

/-- `ClaudeProcessManager._parse_user_message`. -/
def parse_user_message (msg : JVal) : StreamUpdate :=
  let message := jgetD msg "message" (.obj [])
  let content0 := jgetD message "content" (.s "")
  let content : JVal :=
    match content0 with
    | .arr blocks => .s ("\n".intercalate (blocks.filterMap (fun block =>
        match block with
        | .s t => some t
        | _ => if isType block "text" then some (getStrD (jgetD block "text" (.s ""))) else none)))
    | v => v
  { type := "user"
    content := if jtruthy content then some content else none
    timestamp := jget msg "timestamp"
    session_context := some (session_ctx msg) }

/-- `ClaudeProcessManager._parse_system_message`. -/
def parse_system_message (msg : JVal) : StreamUpdate :=
  if jget msg "subtype" == some (.s "init") then
    { type := "system"
      metadata := some (.obj [("subtype", .s "init"),
                              ("tools", jgetD msg "tools" (.arr [])),
                              ("mcp_servers", jgetD msg "mcp_servers" (.arr [])),
                              ("model", (jget msg "model").getD .null),
                              ("cwd", (jget msg "cwd").getD .null),
                              ("permission_mode", (jget msg "permissionMode").getD .null)])
      session_context := some (session_ctx msg) }
  else
    { type := "system"
      content := some (jgetD msg "message" (.s (pyStr msg)))
      metadata := some (.obj [("subtype", (jget msg "subtype").getD .null)])
      timestamp := jget msg "timestamp"
      session_context := some (session_ctx msg) }

/-- `ClaudeProcessManager._parse_error_message`. -/
def parse_error_message (msg : JVal) : StreamUpdate :=
  let error_message := (jget msg "message").getD (jgetD msg "error" (.s (pyStr msg)))
  { type := "error"
    content := some error_message
    error_info := some (.obj [("message", error_message),
                              ("code", (jget msg "code").getD .null),
                              ("subtype", (jget msg "subtype").getD .null)])
    timestamp := jget msg "timestamp"
    session_context := some (session_ctx msg) }

/-- `ClaudeProcessManager._parse_progress_message`. -/
def parse_progress_message (msg : JVal) : StreamUpdate :=
  { type := "progress"
    content := (jget msg "message").orElse (fun _ => jget msg "status")
    progress := some (.obj [("percentage", (jget msg "percentage").getD .null),
                            ("step", (jget msg "step").getD .null),
                            ("total_steps", (jget msg "total_steps").getD .null),
                            ("operation", (jget msg "operation").getD .null)])
    timestamp := jget msg "timestamp"
    session_context := some (session_ctx msg) }

/-- `ClaudeProcessManager._parse_stream_message`: dispatch by `type`
discriminator; `result` and unrecognized discriminators yield `none`. -/
def parse_stream_message (msg : JVal) : Option StreamUpdate :=
  if isType msg "assistant" then some (parse_assistant_message msg)
  else if isType msg "tool_result" then some (parse_tool_result_message msg)
  else if isType msg "user" then some (parse_user_message msg)
  else if isType msg "system" then some (parse_system_message msg)
  else if isType msg "error" then some (parse_error_message msg)
  else if isType msg "progress" then some (parse_progress_message msg)
  else none

/-- `ClaudeProcessManager._validate_message_structure`: the `type`
discriminator must be present. -/
def validate_message_structure (msg : JVal) : Bool :=
  (jget msg "type").isSome

/-- Python-dict lookup semantics over an assignment list in program order:
the value of the *last* assignment to the key (`d[k] = v` overwrites). -/
def lookup_last (l : List (Option JVal × JVal)) (k : Option JVal) : Option JVal :=
  l.foldl (fun acc e => if e.1 = k then some e.2 else acc) none

/-- The content-extraction step of `_parse_result`'s first pass: a
`tool_result` block's `content` is a string, or a list of content segments
whose `text` segments are joined; a list with no text segment falls back to
Python `str()`. -/
def extract_result_content (result_raw : JVal) : JVal :=
  match result_raw with
  | .arr items =>
    let text_parts := items.filterMap (fun it =>
      if isType it "text" then some (getStrD (jgetD it "text" (.s ""))) else none)
    .s (if !text_parts.isEmpty then "\n".intercalate text_parts else pyStr (.arr items))
  | v => v

/-- First pass of `_parse_result`: the `tool_results` dict, as its assignment
list in program order — one entry per `tool_result` block found inside a
`user`-typed frame, keyed by the block's `tool_use_id`. -/
def tool_result_entries (messages : List JVal) : List (Option JVal × JVal) :=
  messages.flatMap (fun msg =>
    if isType msg "user" then
      (msgContent msg).filterMap (fun block =>
        if isType block "tool_result" then
          some (jget block "tool_use_id", extract_result_content (jgetD block "content" (.s "")))
        else none)
    else [])

/-- The first `text`-typed block of a frame's message content, as assigned by
the `Task`-fallback scan (value defaults to `""`; `none` when the frame has
no text block, in which case no assignment happens). -/
def first_text (msg : JVal) : Option JVal :=
  (msgContent msg).findSome? (fun block =>
    if isType block "text" then some (jgetD block "text" (.s "")) else none)

/-- Second pass of `_parse_result`: the `task_tool_summary` dict as its
assignment list — for every adjacent pair of assistant frames, every
`tool_use` block named `Task` in the earlier frame is mapped to the first
text block of the later frame. -/
def task_summary_entries (messages : List JVal) : List (Option JVal × JVal) :=
  (messages.zip messages.tail).flatMap (fun pc =>
    if isType pc.2 "assistant" && isType pc.1 "assistant" then
      (msgContent pc.1).filterMap (fun pb =>
        if isType pb "tool_use" && (jget pb "name" == some (.s "Task")) then
          (first_text pc.2).map (fun t => (jget pb "id", t))
        else none)
    else [])

/-- One `tools_used` entry (the `tool_entry` dict built by `_parse_result`;
the conditionally-added `result` key is modelled as an `Option`). -/
structure ToolEntry where
  name : Option JVal
  input : JVal
  id : Option JVal
  timestamp : Option JVal
  result : Option JVal
deriving DecidableEq

/-- The `result` field of a `tool_entry`: the explicit tool result when the
id is truthy and present in `tool_results`, else the `Task` fallback summary,
else absent. -/
def tool_entry_result (tr ts : List (Option JVal × JVal)) (tname tid : Option JVal) :
    Option JVal :=
  if otruthy tid && (lookup_last tr tid).isSome then lookup_last tr tid
  else if (tname == some (.s "Task")) && (lookup_last ts tid).isSome then lookup_last ts tid
  else none

/-- Final pass of `_parse_result`: every `tool_use` block of every assistant
frame becomes a `tools_used` entry, enriched with a result when available. -/
def tools_used_of (messages : List JVal) : List ToolEntry :=
  let tr := tool_result_entries messages
  let ts := task_summary_entries messages
  messages.flatMap (fun msg =>
    if isType msg "assistant" then
      (msgContent msg).filterMap (fun block =>
        if isType block "tool_use" then
          some { name := jget block "name"
                 input := jgetD block "input" (.obj [])
                 id := jget block "id"
                 timestamp := jget msg "timestamp"
                 result := tool_entry_result tr ts (jget block "name") (jget block "id") }
        else none)
    else [])

/-- The `ClaudeResponse` dataclass.  `http_calls` is always empty here: the
facade constructs the process manager with `tool_monitor=None`. -/
structure ClaudeResponse where
  content : JVal
  session_id : String
  cost : Rat
  duration_ms : Rat
  num_turns : Rat
  is_error : JVal
  error_type : Option JVal
  tools_used : List ToolEntry
  http_calls : List JVal
deriving DecidableEq

/-- `ClaudeProcessManager._parse_result`. -/
def parse_result (result : JVal) (messages : List JVal) : ClaudeResponse :=
  { content := jgetD result "result" (.s "")
    session_id := getStrD (jgetD result "session_id" (.s ""))
    cost := getRatD (jgetD result "cost_usd" (.n 0))
    duration_ms := getRatD (jgetD result "duration_ms" (.n 0))
    num_turns := getRatD (jgetD result "num_turns" (.n 0))
    is_error := jgetD result "is_error" (.b false)
    error_type := if otruthy (jget result "is_error") then jget result "subtype" else none
    tools_used := tools_used_of messages
    http_calls := [] }

/-- Sub-classification of a non-zero-exit process failure
(`ClaudeProcessError`); message text is elided, the generic case keeps the
exit code and raw stderr. -/
inductive ProcessErrKind : Type where
  | authentication : ProcessErrKind
  | usageLimit : ProcessErrKind
  | generic : Int → String → ProcessErrKind
deriving DecidableEq

/-- The exception taxonomy of `exceptions.py` that `integration.py` raises. -/
inductive CError : Type where
  | timeoutError : CError
  | processError : ProcessErrKind → CError
  | sessionError : CError
  | parsingError : String → CError
deriving DecidableEq

/-- ASCII lowercasing of one character (Python `str.lower()` on the ASCII
range relevant to the matched phrases). -/
def py_lower_char (c : Char) : Char :=
  if 65 ≤ c.toNat && c.toNat ≤ 90 then Char.ofNat (c.toNat + 32) else c

/-- Python `error_msg.lower()`. -/
def py_lower (s : String) : String :=
  String.mk (s.data.map py_lower_char)

/-- Occurrence of a pattern as a contiguous substring (Python `pat in s`). -/
def occurs_in (pat : List Char) : List Char → Bool
  | [] => pat.isEmpty
  | c :: rest => pat.isPrefixOf (c :: rest) || occurs_in pat rest

/-- Python `pat in s` on strings. -/
def str_contains (s pat : String) : Bool :=
  occurs_in pat.data s.data

def contains_any (s : String) (pats : List String) : Bool :=
  pats.any (fun p => str_contains s p)

/-- The non-zero-exit classification of `_handle_process_output`: match
case-insensitive stderr substrings against the authentication /
invalid-session / usage-limit families, else a generic process failure. -/
def classify_stderr (return_code : Int) (stderr : String) : CError :=
  let low := py_lower stderr
  if contains_any low ["not authenticated", "authentication failed",
      "please run 'claude setup-token'", "no valid token found"] then
    .processError .authentication
  else if contains_any low ["session not found", "invalid session",
      "session expired", "could not resume"] then
    .sessionError
  else if str_contains low "usage limit reached" then
    .processError .usageLimit
  else
    .processError (.generic return_code stderr)

/-- `self.max_message_buffer = 1000`. -/
def max_message_buffer : Nat := 1000

/-- `deque(maxlen=N).append(x)`: append on the right, evicting from the left
when the bound is exceeded. -/
def push_bounded (maxlen : Nat) (buf : List JVal) (x : JVal) : List JVal :=
  let b := buf ++ [x]
  if maxlen < b.length then b.drop (b.length - maxlen) else b

/-- The mutable state of the read loop in `_handle_process_output`.
`updates` records the stream updates delivered to the caller's stream
callback (when one is supplied; callback failures are swallowed and do not
affect this state). -/
structure LoopState where
  message_buffer : List JVal
  result : Option JVal
  parsing_errors : List String
  updates : List StreamUpdate
deriving DecidableEq

/-- One iteration of the `async for line in self._read_stream_bounded(...)`
loop body: a line failing `json.loads` (`none`) records a parsing error and
is skipped; a frame missing the `type` discriminator likewise; otherwise the
frame is appended to the bounded buffer, its semantic update (if any) is
delivered, and a `result`-typed frame is captured as the terminal frame. -/
def process_line (st : LoopState) (line : Option JVal) : LoopState :=
  match line with
  | none => { st with parsing_errors := st.parsing_errors ++ ["JSON decode error"] }
  | some msg =>
    if validate_message_structure msg then
      { message_buffer := push_bounded max_message_buffer st.message_buffer msg
        result := if isType msg "result" then some msg else st.result
        parsing_errors := st.parsing_errors
        updates := st.updates ++ (parse_stream_message msg).toList }
    else
      { st with parsing_errors := st.parsing_errors ++ ["Invalid message structure"] }

deriving instance DecidableEq for Except

/-- The outcome of `_handle_process_output`: the delivered stream updates,
the recorded per-line parsing errors, and either a final `ClaudeResponse` or
the raised exception. -/
structure HandleResult where
  updates : List StreamUpdate
  parsing_errors : List String
  outcome : Except CError ClaudeResponse
deriving DecidableEq

/-- `ClaudeProcessManager._handle_process_output`, as a function of the
already-split line stream (each line pre-parsed by the external `json.loads`:
`none` = malformed), the process exit code, and its stderr. -/
def handle_process_output (lines : List (Option JVal)) (return_code : Int)
    (stderr : String) : HandleResult :=
  let st := lines.foldl process_line ⟨[], none, [], []⟩
  let outcome : Except CError ClaudeResponse :=
    if return_code != 0 then .error (classify_stderr return_code stderr)
    else
      match st.result with
      | none => .error (.parsingError "No result message received from Claude Code")
      | some r => .ok (parse_result r st.message_buffer)
  ⟨st.updates, st.parsing_errors, outcome⟩

/-- Dict insertion (`d[k] = v`): replace in place when the key is present
(a CPython dict keeps the key's original position), else append. -/
def dset {α : Type} (m : List (String × α)) (k : String) (v : α) : List (String × α) :=
  match m with
  | [] => [(k, v)]
  | (k', v') :: rest => if k' = k then (k, v) :: rest else (k', v') :: dset rest k v

/-- Dict deletion (`del d[k]` / storage delete): drop the key's entry; a
no-op when the key is absent. -/
def ddel {α : Type} (m : List (String × α)) (k : String) : List (String × α) :=
  m.filter (fun p => p.1 != k)

/-- The outcome of awaiting `_handle_process_output` under
`asyncio.wait_for`: the inner coroutine either completed (returning a
response or raising) or the configured timeout fired first. -/
inductive AwaitOutcome : Type where
  | completed : Except CError ClaudeResponse → AwaitOutcome
  | timedOut : AwaitOutcome
deriving DecidableEq

/-- Actions `execute_command` performs on the subprocess after the
registration point. -/
inductive ProcEvent : Type where
  | kill : ProcEvent
  | wait : ProcEvent
deriving DecidableEq

/-- `ClaudeProcessManager.execute_command` from the registration of the
freshly started process onward: the try / except `asyncio.TimeoutError` /
except / finally structure, as a function of the awaited body's outcome.
Returns the caller-visible result, the final `active_processes` registry,
and the kill/wait actions taken on the subprocess. -/
def execute_command (active_processes : List (String × Unit)) (process_id : String)
    (body : AwaitOutcome) :
    Except CError ClaudeResponse × List (String × Unit) × List ProcEvent :=
  let registered := dset active_processes process_id ()
  match body with
  | .completed r =>
    -- success returns the response, an inner exception is re-raised;
    -- either way the `finally` block removes the registry entry
    (r, ddel registered process_id, [])
  | .timedOut =>
    -- `except asyncio.TimeoutError`: kill the process, await its exit,
    -- raise `ClaudeTimeoutError`; the `finally` block removes the entry
    let events := if (registered.lookup process_id).isSome
      then [ProcEvent.kill, ProcEvent.wait] else []
    (.error .timeoutError, ddel registered process_id, events)

/-- Python `bytes.strip()` / `str.strip()` whitespace set. -/
def is_space (c : Char) : Bool :=
  c = ' ' || c = '\t' || c = '\n' || c = '\r' || c = '\x0b' || c = '\x0c'

/-- Python `.strip()`: drop whitespace from both ends. -/
def strip (l : List Char) : List Char :=
  ((l.dropWhile is_space).reverse.dropWhile is_space).reverse

/-- The head line of `buffer.split(b"\n", 1)`. -/
def take_line (l : List Char) : List Char :=
  l.takeWhile (fun c => !(c == '\n'))

/-- The tail of `buffer.split(b"\n", 1)`. -/
def drop_line (l : List Char) : List Char :=
  (l.dropWhile (fun c => !(c == '\n'))).drop 1

theorem length_dropWhile_le (p : Char → Bool) (l : List Char) :
    (l.dropWhile p).length ≤ l.length := by
  induction l with
  | nil => simp [List.dropWhile]
  | cons a t ih =>
    rw [List.dropWhile_cons]
    split
    · exact Nat.le_succ_of_le ih
    · simp

theorem drop_line_length_lt {l : List Char} (h : '\n' ∈ l) :
    (drop_line l).length < l.length := by
  unfold drop_line
  have hne : l.dropWhile (fun c => !(c == '\n')) ≠ [] := by
    intro hnil
    rw [List.dropWhile_eq_nil_iff] at hnil
    have := hnil '\n' h
    simp at this
  have hle := length_dropWhile_le (fun c => !(c == '\n')) l
  have hpos : 0 < (l.dropWhile (fun c => !(c == '\n'))).length :=
    List.length_pos.mpr hne
  rw [List.length_drop]
  omega

/-- The `while b"\n" in buffer` loop of `_read_stream_bounded`: repeatedly
split off the part before the first newline; return the complete lines and
the trailing partial line. -/
def split_buf (l : List Char) : List (List Char) × List Char :=
  if _h : '\n' ∈ l then
    let p := split_buf (drop_line l)
    (take_line l :: p.1, p.2)
  else ([], l)
termination_by l.length
decreasing_by exact drop_line_length_lt _h

/-- The chunk-consuming recursion of `_read_stream_bounded`: each read
chunk is appended to the byte buffer, complete lines are yielded stripped;
an empty chunk means the stream closed (`if not chunk: break`), whereupon a
non-empty trailing buffer is flushed as a final stripped line. -/
def read_aux : List (List Char) → List Char → List (List Char)
  | [], buf => if buf.isEmpty then [] else [strip buf]
  | c :: cs, buf =>
    if c.isEmpty then (if buf.isEmpty then [] else [strip buf])
    else
      let p := split_buf (buf ++ c)
      p.1.map strip ++ read_aux cs p.2

/-- `ClaudeProcessManager._read_stream_bounded`, as a function of the
successive chunks returned by the bounded reads (the byte stream's chosen
chunk partition; the stream end is the end of the list). -/
def read_stream_bounded (chunks : List (List Char)) : List (List Char) :=
  read_aux chunks []

/-- Modelled from the spec (§4.2 Frame Reader), for the refinement claim C9:
the newline-separated segments of a character sequence. -/
def segments : List Char → List (List Char)
  | [] => [[]]
  | c :: rest =>
    if c = '\n' then [] :: segments rest
    else
      match segments rest with
      | [] => [[c]]
      | sg :: ss => (c :: sg) :: ss

/-- Modelled from the spec (§4.2 Frame Reader), for the refinement claim C9:
the line sequence the reader must yield for a given concatenated stream —
every newline-separated segment stripped of surrounding whitespace, except
that a final empty segment (stream ended with a newline, or empty stream)
is not yielded. -/
def spec_lines (data : List Char) : List (List Char) :=
  let sgs := segments data
  (if sgs.getLast? = some [] then sgs.dropLast else sgs).map strip

/-- The `ClaudeSession` dataclass of `session.py`.  `datetime` instants are
modelled as integer seconds; costs as exact rationals. -/
structure ClaudeSession where
  session_id : String
  user_id : Int
  project_path : String
  created_at : Int
  last_used : Int
  total_cost : Rat := 0
  total_turns : Rat := 0
  message_count : Int := 0
  tools_used : List JVal := []
  is_new_session : Bool := false
deriving DecidableEq

/-- `ClaudeSession.is_expired`: age since last use exceeds the timeout
(hours, here in seconds). -/
def ClaudeSession.is_expired (s : ClaudeSession) (timeout_hours : Int) (now : Int) : Bool :=
  now - s.last_used > timeout_hours * 3600

/-- `ClaudeSession.update_usage`: bump last-used, add cost and turns, count
the message, and append newly seen truthy tool names (set semantics). -/
def ClaudeSession.update_usage (s : ClaudeSession) (response : ClaudeResponse)
    (now : Int) : ClaudeSession :=
  { s with
    last_used := now
    total_cost := s.total_cost + response.cost
    total_turns := s.total_turns + response.num_turns
    message_count := s.message_count + 1
    tools_used := response.tools_used.foldl (fun acc tool =>
      match tool.name with
      | some tn => if jtruthy tn && !(acc.contains tn) then acc ++ [tn] else acc
      | none => acc) s.tools_used }

/-- The mutable state of a `SessionManager` backed by the repository's
`InMemorySessionStorage`: the in-memory active-session cache and the
durable storage's key-value dict, both keyed by session id. -/
structure SMState where
  active_sessions : List (String × ClaudeSession)
  storage : List (String × ClaudeSession)
deriving DecidableEq

/-- The configuration fields `SessionManager` reads. -/
structure SMConfig where
  session_timeout_hours : Int
  max_sessions_per_user : Nat
deriving DecidableEq

/-- `InMemorySessionStorage.get_user_sessions`: the stored sessions of one
user, in storage (insertion) order. -/
def storage_user_sessions (storage : List (String × ClaudeSession)) (user_id : Int) :
    List ClaudeSession :=
  (storage.map Prod.snd).filter (fun s => s.user_id == user_id)

/-- Python `min(user_sessions, key=lambda s: s.last_used)`: the first
session attaining the minimal last-used timestamp. -/
def min_by_last_used (best : ClaudeSession) (rest : List ClaudeSession) : ClaudeSession :=
  rest.foldl (fun acc s => if s.last_used < acc.last_used then s else acc) best

/-- `SessionManager.remove_session`: drop from the active cache (if present)
and delete from storage. -/
def remove_session (st : SMState) (session_id : String) : SMState :=
  { active_sessions := ddel st.active_sessions session_id
    storage := ddel st.storage session_id }

/-- `SessionManager.get_or_create_session`.  `now` is the current time and
`fresh_uuid` the generated uuid4 for the placeholder id.  Mirrors the source:
live active-cache hit, else live storage hit (cached under the requested
id), else evict the user's least-recently-used session when the per-user cap
is reached, then create, persist and cache a `temp_`-prefixed placeholder
session marked `is_new_session`. -/
def get_or_create_session (cfg : SMConfig) (st : SMState) (user_id : Int)
    (project_path : String) (session_id : Option String) (now : Int)
    (fresh_uuid : String) : ClaudeSession × SMState :=
  let requested : Option String :=
    match session_id with
    | some sid => if sid != "" then some sid else none  -- `if session_id:` truthiness
    | none => none
  let active_hit : Option ClaudeSession :=
    match requested with
    | some sid =>
      match st.active_sessions.lookup sid with
      | some session =>
        if !(session.is_expired cfg.session_timeout_hours now) then some session else none
      | none => none
    | none => none
  match active_hit with
  | some session => (session, st)
  | none =>
    let storage_hit : Option (String × ClaudeSession) :=
      match requested with
      | some sid =>
        match st.storage.lookup sid with
        | some session =>
          if !(session.is_expired cfg.session_timeout_hours now) then some (sid, session)
          else none
        | none => none
      | none => none
    match storage_hit with
    | some (sid, session) =>
      (session, { st with active_sessions := dset st.active_sessions sid session })
    | none =>
      let user_sessions := storage_user_sessions st.storage user_id
      let st1 :=
        if cfg.max_sessions_per_user ≤ user_sessions.length then
          match user_sessions with
          | [] => st  -- unreachable when the cap is ≥ 1 (CPython: `min([])` raises)
          | s0 :: rest => remove_session st (min_by_last_used s0 rest).session_id
        else st
      let new_session : ClaudeSession :=
        { session_id := "temp_" ++ fresh_uuid
          user_id := user_id
          project_path := project_path
          created_at := now
          last_used := now
          is_new_session := true }
      let st2 := { st1 with storage := dset st1.storage new_session.session_id new_session }
      let st3 := { st2 with
        active_sessions := dset st2.active_sessions new_session.session_id new_session }
      (new_session, st3)

/-- The side-effecting statements of `SessionManager.update_session`, in
program order.  The shared mutable session object is rendered by updating
the active-cache entry (`usageAccounting`) and copying it into storage on
`storeSave`. -/
inductive SOp : Type where
  | cacheDelete : String → SOp
  | storeDelete : String → SOp
  | cacheInsert : String → ClaudeSession → SOp
  | usageAccounting : String → SOp
  | storeSave : String → SOp
deriving DecidableEq

/-- Update one dict entry in place (mutation of the session object aliased
by the active cache). -/
def dmodify (m : List (String × ClaudeSession)) (k : String)
    (f : ClaudeSession → ClaudeSession) : List (String × ClaudeSession) :=
  match m with
  | [] => []
  | (k', v') :: rest =>
    if k' = k then (k', f v') :: dmodify rest k f else (k', v') :: dmodify rest k f

/-- The statement sequence `SessionManager.update_session` executes: nothing
when the id is not in the active cache; otherwise the rename path (delete
the placeholder from cache and storage, re-key the session under the
agent-assigned id, account usage, persist), the mark-not-new path (empty
agent session id), or the plain accounting path. -/
def update_session_ops (st : SMState) (session_id : String)
    (response : ClaudeResponse) : List SOp :=
  match st.active_sessions.lookup session_id with
  | none => []
  | some session =>
    let old_session_id := session.session_id
    if session.is_new_session && (response.session_id != "") then
      [SOp.cacheDelete old_session_id, SOp.storeDelete old_session_id,
       SOp.cacheInsert response.session_id
         { session with session_id := response.session_id, is_new_session := false },
       SOp.usageAccounting response.session_id, SOp.storeSave response.session_id]
    else if session.is_new_session then
      [SOp.cacheInsert session_id { session with is_new_session := false },
       SOp.usageAccounting session_id, SOp.storeSave session_id]
    else
      [SOp.usageAccounting session_id, SOp.storeSave session_id]

/-- Effect of one `update_session` statement on the manager state. -/
def apply_sop (response : ClaudeResponse) (now : Int) (st : SMState) : SOp → SMState
  | .cacheDelete sid => { st with active_sessions := ddel st.active_sessions sid }
  | .storeDelete sid => { st with storage := ddel st.storage sid }
  | .cacheInsert sid session =>
    { st with active_sessions := dset st.active_sessions sid session }
  | .usageAccounting sid =>
    { st with active_sessions :=
        dmodify st.active_sessions sid (fun s => s.update_usage response now) }
  | .storeSave sid =>
    match st.active_sessions.lookup sid with
    | some s => { st with storage := dset st.storage s.session_id s }
    | none => st

/-- `SessionManager.update_session`: execute its statements in order. -/
def update_session (st : SMState) (session_id : String) (response : ClaudeResponse)
    (now : Int) : SMState :=
  (update_session_ops st session_id response).foldl (apply_sop response now) st

/-! ## Dictionary lemmas -/

theorem lookup_dset_self {α : Type} (m : List (String × α)) (k : String) (v : α) :
    (dset m k v).lookup k = some v := by
  induction m with
  | nil => simp [dset, List.lookup]
  | cons p rest ih =>
    obtain ⟨k', v'⟩ := p
    by_cases h : k' = k
    · subst h
      simp [dset, List.lookup]
    · simp only [dset, if_neg h, List.lookup]
      rw [show (k == k') = false from beq_eq_false_iff_ne.mpr (Ne.symm h)]
      exact ih

theorem lookup_dset_ne {α : Type} (m : List (String × α)) (k k₂ : String) (v : α)
    (h : k₂ ≠ k) : (dset m k v).lookup k₂ = m.lookup k₂ := by
  induction m with
  | nil => simp [dset, List.lookup, beq_eq_false_iff_ne.mpr h]
  | cons p rest ih =>
    obtain ⟨k', v'⟩ := p
    by_cases hk : k' = k
    · subst hk
      simp [dset, List.lookup, beq_eq_false_iff_ne.mpr h]
    · simp only [dset, if_neg hk, List.lookup]
      cases hbe : k₂ == k' with
      | true => rfl
      | false => exact ih

theorem lookup_ddel_self {α : Type} (m : List (String × α)) (k : String) :
    (ddel m k).lookup k = none := by
  induction m with
  | nil => simp [ddel]
  | cons p rest ih =>
    obtain ⟨k', v'⟩ := p
    by_cases h : k' = k
    · subst h
      simpa [ddel, List.filter] using ih
    · simp only [ddel, List.filter] at ih ⊢
      rw [show (k' != k) = true from bne_iff_ne.mpr h]
      simp only [List.lookup]
      rw [show (k == k') = false from beq_eq_false_iff_ne.mpr (Ne.symm h)]
      exact ih

theorem lookup_ddel_ne {α : Type} (m : List (String × α)) (k k₂ : String)
    (h : k₂ ≠ k) : (ddel m k).lookup k₂ = m.lookup k₂ := by
  induction m with
  | nil => simp [ddel]
  | cons p rest ih =>
    obtain ⟨k', v'⟩ := p
    by_cases hk : k' = k
    · subst hk
      simp only [ddel, List.filter, bne_self_eq_false]
      simp only [ddel] at ih
      rw [ih]
      simp only [List.lookup]
      rw [show (k₂ == k') = false from beq_eq_false_iff_ne.mpr h]
    · simp only [ddel, List.filter] at ih ⊢
      rw [show (k' != k) = true from bne_iff_ne.mpr hk]
      simp only [List.lookup]
      cases hbe : k₂ == k' with
      | true => rfl
      | false => exact ih

theorem lookup_dmodify (m : List (String × ClaudeSession)) (k k₂ : String)
    (f : ClaudeSession → ClaudeSession) :
    (dmodify m k f).lookup k₂ =
      if k₂ = k then (m.lookup k₂).map f else m.lookup k₂ := by
  induction m with
  | nil => simp [dmodify, List.lookup]
  | cons p rest ih =>
    obtain ⟨k', v'⟩ := p
    by_cases hk : k' = k
    · subst hk
      by_cases h2 : k₂ = k'
      · subst h2
        simp [dmodify, List.lookup]
      · simp only [dmodify, if_pos rfl, List.lookup,
          beq_eq_false_iff_ne.mpr h2]
        exact ih
    · by_cases h2 : k₂ = k'
      · subst h2
        simp only [dmodify, if_neg hk, List.lookup, beq_self_eq_true]
      · simp only [dmodify, if_neg hk, List.lookup,
          beq_eq_false_iff_ne.mpr h2]
        exact ih

theorem mem_dset {α : Type} {m : List (String × α)} {k : String} {v : α} {p : String × α} :
    p ∈ dset m k v → p = (k, v) ∨ p ∈ m := by
  induction m with
  | nil =>
    intro h
    simpa [dset] using h
  | cons q rest ih =>
    obtain ⟨k', v'⟩ := q
    intro h
    by_cases hk : k' = k
    · subst hk
      simp only [dset, if_pos, List.mem_cons] at h
      rcases h with heq | hmem
      · exact Or.inl heq
      · exact Or.inr (List.mem_cons_of_mem _ hmem)
    · simp only [dset, if_neg hk, List.mem_cons] at h
      rcases h with heq | hmem
      · exact Or.inr (heq ▸ List.mem_cons_self _ _)
      · rcases ih hmem with h1 | h1
        · exact Or.inl h1
        · exact Or.inr (List.mem_cons_of_mem _ h1)

theorem mem_ddel {α : Type} {m : List (String × α)} {k : String} {p : String × α}
    (h : p ∈ ddel m k) : p ∈ m :=
  (List.mem_filter.mp h).1

@[simp] theorem update_usage_session_id (s : ClaudeSession) (r : ClaudeResponse) (now : Int) :
    (s.update_usage r now).session_id = s.session_id := rfl

@[simp] theorem update_usage_is_new_session (s : ClaudeSession) (r : ClaudeResponse) (now : Int) :
    (s.update_usage r now).is_new_session = s.is_new_session := rfl

/-! ## Sample data for witnesses and counterexamples -/

/-- A minimal concrete session record. -/
def sample_session (sid : String) (isNew : Bool) : ClaudeSession :=
  { session_id := sid
    user_id := 1
    project_path := "/work"
    created_at := 0
    last_used := 0
    is_new_session := isNew }

/-- A minimal concrete execution response carrying a given agent session id. -/
def sample_response (sid : String) : ClaudeResponse :=
  { content := .s "done"
    session_id := sid
    cost := 1
    duration_ms := 10
    num_turns := 2
    is_error := .b false
    error_type := none
    tools_used := []
    http_calls := [] }

/-! ## C10 -/

/-- C10: for every session id that is not a key of the in-memory
`active_sessions` cache, `update_session` is a complete no-op — no error, no
usage accounting, no storage write — even when a session with that id exists
in durable storage (the entire method body is guarded by
`if session_id in self.active_sessions`). -/
theorem update_session_unknown_id_noop (st : SMState) (sid : String)
    (response : ClaudeResponse) (now : Int)
    (h : st.active_sessions.lookup sid = none) :
    update_session st sid response now = st := by
  unfold update_session update_session_ops
  rw [h]
  rfl

/-- Witness for C10: a state whose storage holds the id but whose active
cache does not; `update_session` leaves the whole state unchanged. -/
theorem update_session_unknown_id_noop_witness :
    update_session
      { active_sessions := [],
        storage := [("s1", sample_session "s1" false)] }
      "s1" (sample_response "s2") 7
    = { active_sessions := [],
        storage := [("s1", sample_session "s1" false)] } :=
  update_session_unknown_id_noop _ "s1" (sample_response "s2") 7 rfl

/-! ## C6 -/

/-- C6: on timeout `execute_command` kills the process, awaits its exit and
raises `ClaudeTimeoutError`; and on every exit path (success, timeout, or
inner exception) the execution's entry is removed from the
`active_processes` registry (the `finally` block). -/
theorem execute_command_timeout_and_cleanup (active : List (String × Unit))
    (pid : String) (body : AwaitOutcome) :
    ((execute_command active pid body).2.1.lookup pid = none) ∧
    (body = .timedOut →
      (execute_command active pid body).1 = .error .timeoutError ∧
      ProcEvent.kill ∈ (execute_command active pid body).2.2 ∧
      ProcEvent.wait ∈ (execute_command active pid body).2.2) := by
  constructor
  · cases body with
    | completed r => exact lookup_ddel_self _ _
    | timedOut => exact lookup_ddel_self _ _
  · intro hb
    subst hb
    refine ⟨rfl, ?_, ?_⟩ <;>
    · show _ ∈ (if ((dset active pid ()).lookup pid).isSome then _ else _)
      rw [lookup_dset_self]
      simp

/-- Witness for C6: a concrete timed-out execution with a non-empty registry;
the response is the timeout error, kill and wait were performed, and the
registry entry is gone. -/
theorem execute_command_timeout_and_cleanup_witness :
    ((execute_command [("other", ())] "p1" .timedOut).2.1.lookup "p1" = none) ∧
    ((execute_command [("other", ())] "p1" .timedOut).1 = .error .timeoutError ∧
      ProcEvent.kill ∈ (execute_command [("other", ())] "p1" .timedOut).2.2 ∧
      ProcEvent.wait ∈ (execute_command [("other", ())] "p1" .timedOut).2.2) := by
  have h := execute_command_timeout_and_cleanup [("other", ())] "p1" .timedOut
  exact ⟨h.1, h.2 rfl⟩

/-! ## C2 -/

/-- Counterexample input state for the rename path of `update_session`: one
placeholder (`NEW`) session present in both the active cache and durable
storage. -/
def c2_state : SMState :=
  { active_sessions := [("temp_a", sample_session "temp_a" true)]
    storage := [("temp_a", sample_session "temp_a" true)] }

/-- C2 counterexample: in the rename path, the durable-storage write under
the agent-assigned id (`storage.save_session`) is the *last* statement,
executed *after* usage accounting — so at the moment accounting runs,
durable storage holds the session under neither the old nor the new id.
The claim's assertion that the replacement is completed in durable storage
before usage accounting is applied is therefore false. -/
theorem update_session_store_insert_after_accounting :
    update_session_ops c2_state "temp_a" (sample_response "sess_b")
      = [SOp.cacheDelete "temp_a", SOp.storeDelete "temp_a",
         SOp.cacheInsert "sess_b"
           { sample_session "temp_a" true with session_id := "sess_b", is_new_session := false },
         SOp.usageAccounting "sess_b", SOp.storeSave "sess_b"] ∧
    (((update_session_ops c2_state "temp_a" (sample_response "sess_b")).take 4).foldl
        (apply_sop (sample_response "sess_b") 7) c2_state).storage.lookup "sess_b" = none ∧
    (((update_session_ops c2_state "temp_a" (sample_response "sess_b")).take 4).foldl
        (apply_sop (sample_response "sess_b") 7) c2_state).storage.lookup "temp_a" = none := by
  decide

theorem apply_sop_storeSave (response : ClaudeResponse) (now : Int) (st : SMState)
    (sid : String) (s : ClaudeSession)
    (h : st.active_sessions.lookup sid = some s) :
    apply_sop response now st (SOp.storeSave sid)
      = { st with storage := dset st.storage s.session_id s } := by
  simp only [apply_sop]
  rw [h]

/-- C2 amended: in the rename path, `update_session` deletes the placeholder
entry from both the cache and durable storage and re-keys it in the
in-memory cache before usage accounting, while the durable-storage write
under the new id happens after usage accounting (last statement); once the
call completes, a lookup by the old placeholder id finds nothing in either
map, and a lookup by the new id finds the session with the accumulated
usage applied in both maps. -/
theorem update_session_rename (st : SMState) (sid : String) (s : ClaudeSession)
    (response : ClaudeResponse) (now : Int)
    (h1 : st.active_sessions.lookup sid = some s)
    (h2 : s.is_new_session = true)
    (h3 : response.session_id ≠ "")
    (h4 : response.session_id ≠ s.session_id) :
    update_session_ops st sid response
      = [SOp.cacheDelete s.session_id, SOp.storeDelete s.session_id,
         SOp.cacheInsert response.session_id
           { s with session_id := response.session_id, is_new_session := false },
         SOp.usageAccounting response.session_id, SOp.storeSave response.session_id] ∧
    (update_session st sid response now).active_sessions.lookup s.session_id = none ∧
    (update_session st sid response now).storage.lookup s.session_id = none ∧
    (update_session st sid response now).active_sessions.lookup response.session_id
      = some (ClaudeSession.update_usage
          { s with session_id := response.session_id, is_new_session := false } response now) ∧
    (update_session st sid response now).storage.lookup response.session_id
      = some (ClaudeSession.update_usage
          { s with session_id := response.session_id, is_new_session := false } response now) := by
  have hops : update_session_ops st sid response
      = [SOp.cacheDelete s.session_id, SOp.storeDelete s.session_id,
         SOp.cacheInsert response.session_id
           { s with session_id := response.session_id, is_new_session := false },
         SOp.usageAccounting response.session_id, SOp.storeSave response.session_id] := by
    unfold update_session_ops
    rw [h1]
    simp only [h2, true_and, Bool.true_and]
    rw [show (response.session_id != "") = true from bne_iff_ne.mpr h3]
    simp
  refine ⟨hops, ?_⟩
  have hrun : update_session st sid response now =
      ([SOp.cacheDelete s.session_id, SOp.storeDelete s.session_id,
        SOp.cacheInsert response.session_id
          { s with session_id := response.session_id, is_new_session := false },
        SOp.usageAccounting response.session_id,
        SOp.storeSave response.session_id].foldl (apply_sop response now) st) := by
    unfold update_session
    rw [hops]
  rw [hrun]
  simp only [List.foldl_cons, List.foldl_nil]
  set s' := { s with session_id := response.session_id, is_new_session := false }
    with hs'
  set su := ClaudeSession.update_usage s' response now with hsu
  -- state after the first four statements
  have hmid_active :
      (apply_sop response now
        (apply_sop response now
          (apply_sop response now
            (apply_sop response now st (SOp.cacheDelete s.session_id))
            (SOp.storeDelete s.session_id))
          (SOp.cacheInsert response.session_id s'))
        (SOp.usageAccounting response.session_id)).active_sessions
      = dmodify (dset (ddel st.active_sessions s.session_id) response.session_id s')
          response.session_id (fun x => x.update_usage response now) := rfl
  have hmid_storage :
      (apply_sop response now
        (apply_sop response now
          (apply_sop response now
            (apply_sop response now st (SOp.cacheDelete s.session_id))
            (SOp.storeDelete s.session_id))
          (SOp.cacheInsert response.session_id s'))
        (SOp.usageAccounting response.session_id)).storage
      = ddel st.storage s.session_id := rfl
  have hlook_new :
      (dmodify (dset (ddel st.active_sessions s.session_id) response.session_id s')
          response.session_id (fun x => x.update_usage response now)).lookup
        response.session_id = some su := by
    rw [lookup_dmodify, if_pos rfl, lookup_dset_self]
    rfl
  have hl : (apply_sop response now
      (apply_sop response now
        (apply_sop response now
          (apply_sop response now st (SOp.cacheDelete s.session_id))
          (SOp.storeDelete s.session_id))
        (SOp.cacheInsert response.session_id s'))
      (SOp.usageAccounting response.session_id)).active_sessions.lookup
        response.session_id = some su := by
    rw [hmid_active]
    exact hlook_new
  rw [apply_sop_storeSave response now _ response.session_id su hl, hmid_active,
    hmid_storage]
  have hsu_id : su.session_id = response.session_id := by
    rw [hsu]
    simp [hs']
  refine ⟨?_, ?_, ?_, ?_⟩
  · rw [lookup_dmodify, if_neg (Ne.symm h4), lookup_dset_ne _ _ _ _ (Ne.symm h4),
      lookup_ddel_self]
  · rw [hsu_id, lookup_dset_ne _ _ _ _ (Ne.symm h4), lookup_ddel_self]
  · exact hlook_new
  · rw [hsu_id, lookup_dset_self]

/-- Witness for C2's amended theorem at a concrete state. -/
theorem update_session_rename_witness :
    update_session_ops c2_state "temp_a" (sample_response "sess_b")
      = [SOp.cacheDelete "temp_a", SOp.storeDelete "temp_a",
         SOp.cacheInsert "sess_b"
           { sample_session "temp_a" true with session_id := "sess_b", is_new_session := false },
         SOp.usageAccounting "sess_b", SOp.storeSave "sess_b"] ∧
    (update_session c2_state "temp_a" (sample_response "sess_b") 7).active_sessions.lookup "temp_a" = none ∧
    (update_session c2_state "temp_a" (sample_response "sess_b") 7).storage.lookup "temp_a" = none ∧
    (update_session c2_state "temp_a" (sample_response "sess_b") 7).active_sessions.lookup "sess_b"
      = some (ClaudeSession.update_usage
          { sample_session "temp_a" true with session_id := "sess_b", is_new_session := false }
          (sample_response "sess_b") 7) ∧
    (update_session c2_state "temp_a" (sample_response "sess_b") 7).storage.lookup "sess_b"
      = some (ClaudeSession.update_usage
          { sample_session "temp_a" true with session_id := "sess_b", is_new_session := false }
          (sample_response "sess_b") 7) :=
  update_session_rename c2_state "temp_a" (sample_session "temp_a" true)
    (sample_response "sess_b") 7 rfl rfl (by decide) (by decide)

/-! ## C4 -/

/-- A locally-minted placeholder identifier, as created by
`get_or_create_session` (`f"temp_{uuid4()}"`). -/
def is_placeholder (sid : String) : Bool :=
  "temp_".toList.isPrefixOf sid.toList

/-- The §3 data-model invariant: a session is either still a `NEW`
placeholder, or it carries an agent-assigned (non-`temp_`-prefixed)
identifier while being treated as resumable. -/
def session_ok (s : ClaudeSession) : Prop :=
  s.is_new_session = true ∨ is_placeholder s.session_id = false

/-- Both maps of a manager state satisfy the invariant. -/
def state_ok (st : SMState) : Prop :=
  (∀ p ∈ st.active_sessions, session_ok p.2) ∧ (∀ p ∈ st.storage, session_ok p.2)

theorem lookup_mem {α : Type} {m : List (String × α)} {k : String} {v : α}
    (h : m.lookup k = some v) : (k, v) ∈ m := by
  induction m with
  | nil => simp [List.lookup] at h
  | cons p rest ih =>
    obtain ⟨k', v'⟩ := p
    simp only [List.lookup] at h
    cases hbe : k == k' with
    | true =>
      rw [hbe] at h
      simp only [Option.some.injEq] at h
      subst h
      exact (beq_iff_eq.mp hbe) ▸ List.mem_cons_self _ _
    | false =>
      rw [hbe] at h
      exact List.mem_cons_of_mem _ (ih h)

theorem mem_dmodify {m : List (String × ClaudeSession)} {k : String}
    {f : ClaudeSession → ClaudeSession} {p : String × ClaudeSession}
    (h : p ∈ dmodify m k f) : ∃ q ∈ m, p = q ∨ p = (q.1, f q.2) := by
  induction m with
  | nil => simp [dmodify] at h
  | cons q rest ih =>
    obtain ⟨k', v'⟩ := q
    by_cases hk : k' = k
    · subst hk
      simp only [dmodify, if_pos, List.mem_cons] at h
      rcases h with heq | hmem
      · exact ⟨(k', v'), List.mem_cons_self _ _, Or.inr heq⟩
      · obtain ⟨q, hq, hor⟩ := ih hmem
        exact ⟨q, List.mem_cons_of_mem _ hq, hor⟩
    · simp only [dmodify, if_neg hk, List.mem_cons] at h
      rcases h with heq | hmem
      · exact ⟨(k', v'), List.mem_cons_self _ _, Or.inl heq⟩
      · obtain ⟨q, hq, hor⟩ := ih hmem
        exact ⟨q, List.mem_cons_of_mem _ hq, hor⟩

theorem session_ok_update_usage {s : ClaudeSession} (response : ClaudeResponse)
    (now : Int) (h : session_ok s) :
    session_ok (s.update_usage response now) := by
  unfold session_ok at h ⊢
  simpa using h

/-- Preservation of the invariant by one `update_session` statement, provided
any inserted session itself satisfies it. -/
theorem apply_sop_preserves (response : ClaudeResponse) (now : Int) (op : SOp)
    (st : SMState) (h : state_ok st)
    (hop : ∀ sid sess, op = SOp.cacheInsert sid sess → session_ok sess) :
    state_ok (apply_sop response now st op) := by
  obtain ⟨hA, hS⟩ := h
  cases op with
  | cacheDelete sid => exact ⟨fun p hp => hA p (mem_ddel hp), hS⟩
  | storeDelete sid => exact ⟨hA, fun p hp => hS p (mem_ddel hp)⟩
  | cacheInsert sid sess =>
    refine ⟨fun p hp => ?_, hS⟩
    rcases mem_dset hp with heq | hmem
    · rw [heq]
      exact hop sid sess rfl
    · exact hA p hmem
  | usageAccounting sid =>
    refine ⟨fun p hp => ?_, hS⟩
    obtain ⟨q, hq, hor⟩ := mem_dmodify hp
    rcases hor with heq | heq
    · exact heq ▸ hA q hq
    · rw [heq]
      exact session_ok_update_usage response now (hA q hq)
  | storeSave sid =>
    show state_ok (match st.active_sessions.lookup sid with
      | some s => { st with storage := dset st.storage s.session_id s }
      | none => st)
    cases hl : st.active_sessions.lookup sid with
    | none => exact ⟨hA, hS⟩
    | some s =>
      refine ⟨hA, fun p hp => ?_⟩
      rcases mem_dset hp with heq | hmem
      · rw [heq]
        exact hA (sid, s) (lookup_mem hl)
      · exact hS p hmem

/-- C4 counterexample: when a completed execution's response carries an
*empty* session id, the `elif` branch of `update_session` (lines 354-356)
marks the placeholder session as no longer new while it still holds its
`temp_`-prefixed identifier — the session is now treated as resumable with a
placeholder id, violating the claimed invariant. -/
theorem update_session_empty_sid_invariant_violation :
    (update_session c2_state "temp_a" (sample_response "") 7).active_sessions.lookup "temp_a"
      = some (ClaudeSession.update_usage (sample_session "temp_a" false) (sample_response "") 7) ∧
    (ClaudeSession.update_usage (sample_session "temp_a" false) (sample_response "") 7).is_new_session = false ∧
    is_placeholder (ClaudeSession.update_usage (sample_session "temp_a" false) (sample_response "") 7).session_id = true :=
  ⟨rfl, rfl, by decide⟩

/-- C4 amended: the invariant is preserved by `update_session` whenever the
completed execution's response carries a non-empty, non-placeholder session
id; the violation is confined to the empty-session-id path exhibited by the
counterexample. -/
theorem update_session_preserves_invariant (st : SMState) (sid : String)
    (response : ClaudeResponse) (now : Int)
    (h : state_ok st)
    (hr1 : response.session_id ≠ "")
    (hr2 : is_placeholder response.session_id = false) :
    state_ok (update_session st sid response now) := by
  cases hl : st.active_sessions.lookup sid with
  | none =>
    unfold update_session update_session_ops
    rw [hl]
    exact h
  | some s =>
    cases hnew : s.is_new_session with
    | true =>
      have hops : update_session_ops st sid response
          = [SOp.cacheDelete s.session_id, SOp.storeDelete s.session_id,
             SOp.cacheInsert response.session_id
               { s with session_id := response.session_id, is_new_session := false },
             SOp.usageAccounting response.session_id,
             SOp.storeSave response.session_id] := by
        unfold update_session_ops
        rw [hl]
        simp only [hnew, Bool.true_and]
        rw [show (response.session_id != "") = true from bne_iff_ne.mpr hr1]
        simp
      unfold update_session
      rw [hops]
      simp only [List.foldl_cons, List.foldl_nil]
      have hinsert : session_ok
          { s with session_id := response.session_id, is_new_session := false } :=
        Or.inr hr2
      refine apply_sop_preserves response now _ _
        (apply_sop_preserves response now _ _
          (apply_sop_preserves response now _ _
            (apply_sop_preserves response now _ _
              (apply_sop_preserves response now _ _ h ?_) ?_) ?_) ?_) ?_
      · intro sid' sess' hcontra
        cases hcontra
      · intro sid' sess' hcontra
        cases hcontra
      · intro sid' sess' hcontra
        injection hcontra with h1 h2
        rw [← h2]
        exact hinsert
      · intro sid' sess' hcontra
        cases hcontra
      · intro sid' sess' hcontra
        cases hcontra
    | false =>
      have hops : update_session_ops st sid response
          = [SOp.usageAccounting sid, SOp.storeSave sid] := by
        unfold update_session_ops
        rw [hl]
        simp [hnew]
      unfold update_session
      rw [hops]
      simp only [List.foldl_cons, List.foldl_nil]
      refine apply_sop_preserves response now _ _
        (apply_sop_preserves response now _ _ h ?_) ?_
      · intro sid' sess' hcontra
        cases hcontra
      · intro sid' sess' hcontra
        cases hcontra

/-- Witness for C4's amended theorem: a state satisfying the invariant, a
response with a proper agent id; the invariant still holds afterwards. -/
theorem update_session_preserves_invariant_witness :
    state_ok (update_session c2_state "temp_a" (sample_response "sess_b") 7) :=
  update_session_preserves_invariant c2_state "temp_a" (sample_response "sess_b") 7
    ⟨fun p hp => by
        simp only [c2_state, List.mem_singleton] at hp
        rw [hp]
        exact Or.inl rfl,
      fun p hp => by
        simp only [c2_state, List.mem_singleton] at hp
        rw [hp]
        exact Or.inl rfl⟩
    (by decide) (by decide)

/-! ## C7 -/

theorem min_by_last_used_mem (s0 : ClaudeSession) (rest : List ClaudeSession) :
    min_by_last_used s0 rest ∈ s0 :: rest := by
  induction rest generalizing s0 with
  | nil => exact List.mem_singleton.mpr rfl
  | cons a t ih =>
    show List.foldl _ _ (a :: t) ∈ _
    rw [List.foldl_cons]
    by_cases hlt : a.last_used < s0.last_used
    · have h1 := ih (if a.last_used < s0.last_used then a else s0)
      rw [if_pos hlt] at h1
      rcases List.mem_cons.mp h1 with h2 | h2
      · rw [if_pos hlt]
        show min_by_last_used a t ∈ _
        rw [h2]
        exact List.mem_cons_of_mem _ (List.mem_cons_self _ _)
      · rw [if_pos hlt]
        exact List.mem_cons_of_mem _ (List.mem_cons_of_mem _ h2)
    · have h1 := ih (if a.last_used < s0.last_used then a else s0)
      rw [if_neg hlt] at h1
      rcases List.mem_cons.mp h1 with h2 | h2
      · rw [if_neg hlt]
        show min_by_last_used s0 t ∈ _
        rw [h2]
        exact List.mem_cons_self _ _
      · rw [if_neg hlt]
        exact List.mem_cons_of_mem _ (List.mem_cons_of_mem _ h2)

theorem min_by_last_used_le (s0 : ClaudeSession) (rest : List ClaudeSession) :
    ∀ s ∈ s0 :: rest, (min_by_last_used s0 rest).last_used ≤ s.last_used := by
  induction rest generalizing s0 with
  | nil =>
    intro s hs
    rw [List.mem_singleton.mp hs]
    exact le_refl _
  | cons a t ih =>
    intro s hs
    have hstep : min_by_last_used s0 (a :: t)
        = min_by_last_used (if a.last_used < s0.last_used then a else s0) t := rfl
    rw [hstep]
    have hmin : (if a.last_used < s0.last_used then a else s0).last_used ≤ s0.last_used
        ∧ (if a.last_used < s0.last_used then a else s0).last_used ≤ a.last_used := by
      by_cases hlt : a.last_used < s0.last_used
      · rw [if_pos hlt]
        exact ⟨le_of_lt hlt, le_refl _⟩
      · rw [if_neg hlt]
        exact ⟨le_refl _, le_of_not_lt hlt⟩
    have hself := ih (if a.last_used < s0.last_used then a else s0)
      (if a.last_used < s0.last_used then a else s0) (List.mem_cons_self _ _)
    rcases List.mem_cons.mp hs with h | h
    · rw [h]
      exact le_trans hself hmin.1
    · rcases List.mem_cons.mp h with h2 | h2
      · rw [h2]
        exact le_trans hself hmin.2
      · exact ih (if a.last_used < s0.last_used then a else s0) s
          (List.mem_cons_of_mem _ h2)

/-- C7: when no live session matches the request and the user's stored
session count is at or above `max_sessions_per_user`, exactly one session is
evicted, namely the user's session with the oldest `last_used` timestamp
(first such in storage order on ties), after which the fresh placeholder is
created: the final maps are exactly the originals minus the evicted key plus
the placeholder. -/
theorem get_or_create_session_evicts_lru (cfg : SMConfig) (st : SMState)
    (user_id : Int) (project_path : String) (session_id : Option String)
    (now : Int) (fresh_uuid : String) (s0 : ClaudeSession) (rest : List ClaudeSession)
    (hus : storage_user_sessions st.storage user_id = s0 :: rest)
    (hA : ∀ sid, session_id = some sid → sid ≠ "" →
      ∀ s, st.active_sessions.lookup sid = some s →
        s.is_expired cfg.session_timeout_hours now = true)
    (hS : ∀ sid, session_id = some sid → sid ≠ "" →
      ∀ s, st.storage.lookup sid = some s →
        s.is_expired cfg.session_timeout_hours now = true)
    (hC : cfg.max_sessions_per_user ≤ (storage_user_sessions st.storage user_id).length) :
    (min_by_last_used s0 rest) ∈ storage_user_sessions st.storage user_id ∧
    (∀ s ∈ storage_user_sessions st.storage user_id,
      (min_by_last_used s0 rest).last_used ≤ s.last_used) ∧
    get_or_create_session cfg st user_id project_path session_id now fresh_uuid
      = ({ session_id := "temp_" ++ fresh_uuid
           user_id := user_id
           project_path := project_path
           created_at := now
           last_used := now
           is_new_session := true },
         { active_sessions :=
             dset (ddel st.active_sessions (min_by_last_used s0 rest).session_id)
               ("temp_" ++ fresh_uuid)
               { session_id := "temp_" ++ fresh_uuid
                 user_id := user_id
                 project_path := project_path
                 created_at := now
                 last_used := now
                 is_new_session := true }
           storage :=
             dset (ddel st.storage (min_by_last_used s0 rest).session_id)
               ("temp_" ++ fresh_uuid)
               { session_id := "temp_" ++ fresh_uuid
                 user_id := user_id
                 project_path := project_path
                 created_at := now
                 last_used := now
                 is_new_session := true } }) := by
  refine ⟨hus ▸ min_by_last_used_mem s0 rest, ?_, ?_⟩
  · intro s hs
    exact min_by_last_used_le s0 rest s (hus ▸ hs)
  · have hC2 : cfg.max_sessions_per_user ≤ (s0 :: rest).length := by
      rw [← hus]
      exact hC
    unfold get_or_create_session
    cases session_id with
    | none =>
      dsimp only
      rw [hus, if_pos hC2]
      rfl
    | some sid =>
      by_cases hsid : sid = ""
      · subst hsid
        dsimp only
        rw [hus, if_pos hC2]
        rfl
      · dsimp only
        rw [show (sid != "") = true from bne_iff_ne.mpr hsid]
        split
        next session hhit =>
          rw [show (if true = true then some sid else none : Option String) = some sid
            from rfl] at hhit
          dsimp only at hhit
          cases hact : st.active_sessions.lookup sid with
          | none =>
            rw [hact] at hhit
            simp at hhit
          | some s =>
            rw [hact] at hhit
            dsimp only at hhit
            rw [hA sid rfl hsid s hact] at hhit
            simp at hhit
        next hhit =>
          split
          next sid2 session hhit2 =>
            rw [show (if true = true then some sid else none : Option String) = some sid
              from rfl] at hhit2
            dsimp only at hhit2
            cases hsto : st.storage.lookup sid with
            | none =>
              rw [hsto] at hhit2
              simp at hhit2
            | some s =>
              rw [hsto] at hhit2
              dsimp only at hhit2
              rw [hS sid rfl hsid s hsto] at hhit2
              simp at hhit2
          next hhit2 =>
            rw [hus, if_pos hC2]
            rfl

/-- Configuration for the C7 witness: per-user cap of one session. -/
def c7_cfg : SMConfig :=
  { session_timeout_hours := 24, max_sessions_per_user := 1 }

/-- State for the C7 witness: user 1 already holds one (live) session. -/
def c7_state : SMState :=
  { active_sessions := [("old", sample_session "old" false)]
    storage := [("old", sample_session "old" false)] }

/-- Witness for C7: at the cap, requesting a new session evicts the user's
only (hence least-recently-used) session and creates the placeholder. -/
theorem get_or_create_session_evicts_lru_witness :
    (min_by_last_used (sample_session "old" false) [])
      ∈ storage_user_sessions c7_state.storage 1 ∧
    get_or_create_session c7_cfg c7_state 1 "/work" none 5 "u1"
      = ({ session_id := "temp_" ++ "u1"
           user_id := 1
           project_path := "/work"
           created_at := 5
           last_used := 5
           is_new_session := true },
         { active_sessions :=
             dset (ddel c7_state.active_sessions
                 (min_by_last_used (sample_session "old" false) []).session_id)
               ("temp_" ++ "u1")
               { session_id := "temp_" ++ "u1"
                 user_id := 1
                 project_path := "/work"
                 created_at := 5
                 last_used := 5
                 is_new_session := true }
           storage :=
             dset (ddel c7_state.storage
                 (min_by_last_used (sample_session "old" false) []).session_id)
               ("temp_" ++ "u1")
               { session_id := "temp_" ++ "u1"
                 user_id := 1
                 project_path := "/work"
                 created_at := 5
                 last_used := 5
                 is_new_session := true } }) := by
  have h := get_or_create_session_evicts_lru c7_cfg c7_state 1 "/work" none 5 "u1"
    (sample_session "old" false) [] (by decide)
    (fun sid hcontra => by cases hcontra)
    (fun sid hcontra => by cases hcontra)
    (by decide)
  exact ⟨h.1, h.2.2⟩

/-! ## Read-loop decomposition -/

/-- Derived view of the line stream: the frames that survive `json.loads`
and the `type`-discriminator validation — exactly those the loop appends to
the bounded buffer. -/
def valid_frames (lines : List (Option JVal)) : List JVal :=
  (lines.filterMap id).filter validate_message_structure

/-- The parsing-error tags one line contributes. -/
def err_tags : Option JVal → List String
  | none => ["JSON decode error"]
  | some m => if validate_message_structure m then [] else ["Invalid message structure"]

theorem valid_frames_cons_none (rest : List (Option JVal)) :
    valid_frames (none :: rest) = valid_frames rest := rfl

theorem valid_frames_cons_some_valid {m : JVal} (rest : List (Option JVal))
    (hv : validate_message_structure m = true) :
    valid_frames (some m :: rest) = m :: valid_frames rest := by
  unfold valid_frames
  rw [List.filterMap_cons]
  simp [hv]

theorem valid_frames_cons_some_invalid {m : JVal} (rest : List (Option JVal))
    (hv : validate_message_structure m = false) :
    valid_frames (some m :: rest) = valid_frames rest := by
  unfold valid_frames
  rw [List.filterMap_cons]
  simp [hv]

theorem process_line_none (st : LoopState) :
    process_line st none
      = { st with parsing_errors := st.parsing_errors ++ ["JSON decode error"] } := rfl

theorem process_line_some_valid (st : LoopState) (m : JVal)
    (hv : validate_message_structure m = true) :
    process_line st (some m)
      = { message_buffer := push_bounded max_message_buffer st.message_buffer m
          result := if isType m "result" then some m else st.result
          parsing_errors := st.parsing_errors
          updates := st.updates ++ (parse_stream_message m).toList } := by
  simp only [process_line]
  rw [if_pos hv]

theorem process_line_some_invalid (st : LoopState) (m : JVal)
    (hv : validate_message_structure m = false) :
    process_line st (some m)
      = { st with parsing_errors := st.parsing_errors ++ ["Invalid message structure"] } := by
  simp only [process_line]
  rw [if_neg (by rw [hv]; exact Bool.false_ne_true)]

/-- Complete characterization of the read loop's fold over a line stream. -/
theorem foldl_process_line_spec (lines : List (Option JVal)) (st : LoopState) :
    lines.foldl process_line st =
      { message_buffer :=
          (valid_frames lines).foldl (push_bounded max_message_buffer) st.message_buffer
        result :=
          (valid_frames lines).foldl
            (fun a m => if isType m "result" then some m else a) st.result
        parsing_errors := st.parsing_errors ++ lines.flatMap err_tags
        updates := st.updates ++ (valid_frames lines).filterMap parse_stream_message } := by
  induction lines generalizing st with
  | nil =>
    simp only [List.foldl_nil]
    unfold valid_frames
    simp
  | cons line rest ih =>
    rw [List.foldl_cons, ih (process_line st line)]
    cases line with
    | none =>
      rw [valid_frames_cons_none, process_line_none]
      simp [err_tags]
    | some m =>
      cases hv : validate_message_structure m with
      | true =>
        rw [process_line_some_valid st m hv, valid_frames_cons_some_valid rest hv]
        cases hp : parse_stream_message m with
        | none =>
          simp [err_tags, hv, List.filterMap_cons, hp]
        | some u =>
          simp [err_tags, hv, List.filterMap_cons, hp]
      | false =>
        rw [process_line_some_invalid st m hv, valid_frames_cons_some_invalid rest hv]
        simp [err_tags, hv]

/-! ## C3 -/

theorem fold_result_none (msgs : List JVal)
    (h : ∀ m ∈ msgs, isType m "result" = false) :
    msgs.foldl (fun a m => if isType m "result" then some m else a) none = none := by
  induction msgs with
  | nil => rfl
  | cons m rest ih =>
    rw [List.foldl_cons, if_neg (by rw [h m (List.mem_cons_self _ _)]; exact Bool.false_ne_true)]
    exact ih (fun m' hm' => h m' (List.mem_cons_of_mem _ hm'))

/-- C3 corrected: an execution whose frame stream never contains a
`result`-typed frame never yields a `ClaudeResponse`; it raises
`ClaudeParsingError` when the process exited with code 0 — for a non-zero
exit code the stderr-classified `ClaudeProcessError`/`ClaudeSessionError` is
raised instead (see the counterexample). -/
theorem no_result_frame_fails (lines : List (Option JVal)) (rc : Int) (stderr : String)
    (h : ∀ m ∈ valid_frames lines, isType m "result" = false) :
    (∀ resp, (handle_process_output lines rc stderr).outcome ≠ .ok resp) ∧
    (rc = 0 → (handle_process_output lines rc stderr).outcome
      = .error (.parsingError "No result message received from Claude Code")) := by
  have hres : (lines.foldl process_line ⟨[], none, [], []⟩).result = none := by
    rw [foldl_process_line_spec]
    exact fold_result_none _ h
  constructor
  · intro resp hok
    unfold handle_process_output at hok
    dsimp only at hok
    by_cases hrc : (rc != 0) = true
    · rw [if_pos hrc] at hok
      cases hok
    · rw [if_neg hrc] at hok
      rw [hres] at hok
      cases hok
  · intro hrc0
    subst hrc0
    unfold handle_process_output
    dsimp only
    rw [hres]
    rfl

/-- C3 counterexample: a stream with no `result` frame but a non-zero
process exit raises the stderr-classified process error, not
`ClaudeParsingError` — the non-zero-exit check precedes the missing-result
check. -/
theorem no_result_frame_nonzero_exit_not_parsing_error :
    (handle_process_output [] 1 "boom").outcome
      = .error (.processError (.generic 1 "boom")) ∧
    (handle_process_output [] 1 "boom").outcome
      ≠ .error (.parsingError "No result message received from Claude Code") := by
  constructor
  · decide
  · intro hcontra
    cases hcontra

/-- Witness for C3's amended theorem: a stream holding only a progress frame
and exit code 0 fails with the parsing error. -/
theorem no_result_frame_fails_witness :
    (handle_process_output [some (JVal.obj [("type", .s "progress")])] 0 "").outcome
      = .error (.parsingError "No result message received from Claude Code") := by
  have h := no_result_frame_fails [some (JVal.obj [("type", .s "progress")])] 0 ""
    (by decide)
  exact h.2 rfl

/-! ## C8 -/

theorem valid_frames_append (l1 l2 : List (Option JVal)) :
    valid_frames (l1 ++ l2) = valid_frames l1 ++ valid_frames l2 := by
  unfold valid_frames
  rw [List.filterMap_append, List.filter_append]

/-- C8: a line that fails JSON parsing, inserted anywhere in the stream, is
recorded as exactly one additional parsing error and skipped: the delivered
stream updates and the final outcome are identical to the run without the
malformed line, and in particular every following valid frame's
`StreamUpdate` is still produced and delivered to the stream callback. -/
theorem malformed_line_skipped (l1 l2 : List (Option JVal)) (rc : Int) (stderr : String) :
    (handle_process_output (l1 ++ none :: l2) rc stderr).updates
      = (handle_process_output (l1 ++ l2) rc stderr).updates ∧
    (handle_process_output (l1 ++ none :: l2) rc stderr).outcome
      = (handle_process_output (l1 ++ l2) rc stderr).outcome ∧
    (handle_process_output (l1 ++ none :: l2) rc stderr).parsing_errors
      = l1.flatMap err_tags ++ ["JSON decode error"] ++ l2.flatMap err_tags ∧
    (handle_process_output (l1 ++ none :: l2) rc stderr).updates
      = (valid_frames (l1 ++ l2)).filterMap parse_stream_message := by
  have hv : valid_frames (l1 ++ none :: l2) = valid_frames (l1 ++ l2) := by
    rw [valid_frames_append, valid_frames_append, valid_frames_cons_none]
  unfold handle_process_output
  dsimp only
  rw [foldl_process_line_spec, foldl_process_line_spec, hv]
  refine ⟨rfl, rfl, ?_, rfl⟩
  dsimp only
  rw [List.flatMap_append, List.flatMap_cons]
  simp [err_tags]

/-! ## Tool-correlation lemmas (C1, C5) -/

theorem foldl_lookup_some (l : List (Option JVal × JVal)) (k : Option JVal)
    (acc : Option JVal) (h : acc.isSome) :
    (l.foldl (fun acc e => if e.1 = k then some e.2 else acc) acc).isSome := by
  induction l generalizing acc with
  | nil => exact h
  | cons e rest ih =>
    rw [List.foldl_cons]
    by_cases he : e.1 = k
    · exact ih _ (by rw [if_pos he]; rfl)
    · exact ih _ (by rw [if_neg he]; exact h)

theorem foldl_lookup_mem (l : List (Option JVal × JVal)) (k : Option JVal) (v : JVal) :
    ∀ acc, (k, v) ∈ l →
      (l.foldl (fun acc e => if e.1 = k then some e.2 else acc) acc).isSome := by
  induction l with
  | nil =>
    intro acc h
    cases h
  | cons e rest ih =>
    intro acc h
    rw [List.foldl_cons]
    rcases List.mem_cons.mp h with heq | hmem
    · refine foldl_lookup_some rest k _ ?_
      rw [← heq]
      rw [if_pos rfl]
      rfl
    · exact ih _ hmem

theorem lookup_last_isSome_of_mem {l : List (Option JVal × JVal)} {k : Option JVal}
    {v : JVal} (h : (k, v) ∈ l) : (lookup_last l k).isSome :=
  foldl_lookup_mem l k v none h

theorem lookup_last_none_of_not_mem {l : List (Option JVal × JVal)} {k : Option JVal}
    (h : ∀ v, (k, v) ∉ l) : lookup_last l k = none := by
  unfold lookup_last
  induction l with
  | nil => rfl
  | cons e rest ih =>
    rw [List.foldl_cons]
    rw [if_neg (fun heq : e.1 = k => h e.2 (by rw [← heq]; exact List.mem_cons_self _ _))]
    exact ih (fun v hv => h v (List.mem_cons_of_mem _ hv))

theorem foldl_lookup_eq (l : List (Option JVal × JVal)) (k : Option JVal) (t : JVal) :
    ∀ acc, (∀ v, (k, v) ∈ l → v = t) →
      (acc = some t ∨ (acc = none ∧ ∃ v, (k, v) ∈ l)) →
      l.foldl (fun acc e => if e.1 = k then some e.2 else acc) acc = some t := by
  induction l with
  | nil =>
    intro acc hall hacc
    rcases hacc with h | ⟨_, v, hv⟩
    · exact h
    · cases hv
  | cons e rest ih =>
    intro acc hall hacc
    rw [List.foldl_cons]
    by_cases he : e.1 = k
    · have hev : e = (k, e.2) := by
        rw [← he]
      have het : e.2 = t := hall e.2 (by rw [← hev] at *; exact List.mem_cons_self _ _)
      refine ih _ (fun v hv => hall v (List.mem_cons_of_mem _ hv)) (Or.inl ?_)
      rw [if_pos he, het]
    · refine ih _ (fun v hv => hall v (List.mem_cons_of_mem _ hv)) ?_
      rw [if_neg he]
      rcases hacc with h | ⟨hn, v, hv⟩
      · exact Or.inl h
      · refine Or.inr ⟨hn, v, ?_⟩
        rcases List.mem_cons.mp hv with heq | hmem
        · exact absurd (by rw [← heq] : e.1 = k) he
        · exact hmem

theorem lookup_last_eq_of_unique {l : List (Option JVal × JVal)} {k : Option JVal}
    {t : JVal} (hall : ∀ v, (k, v) ∈ l → v = t) (hex : ∃ v, (k, v) ∈ l) :
    lookup_last l k = some t :=
  foldl_lookup_eq l k t none hall (Or.inr ⟨rfl, hex⟩)

theorem mem_tool_result_entries {messages : List JVal} {m b : JVal} {i : Option JVal}
    (hm : m ∈ messages) (hu : isType m "user" = true) (hb : b ∈ msgContent m)
    (hbt : isType b "tool_result" = true) (hkey : jget b "tool_use_id" = i) :
    (i, extract_result_content (jgetD b "content" (.s ""))) ∈ tool_result_entries messages := by
  unfold tool_result_entries
  rw [List.mem_flatMap]
  refine ⟨m, hm, ?_⟩
  rw [if_pos hu, List.mem_filterMap]
  refine ⟨b, hb, ?_⟩
  rw [if_pos hbt, hkey]

theorem mem_tool_result_entries_inv {messages : List JVal} {k : Option JVal} {v : JVal}
    (h : (k, v) ∈ tool_result_entries messages) :
    ∃ m ∈ messages, isType m "user" = true ∧
      ∃ b ∈ msgContent m, isType b "tool_result" = true ∧ jget b "tool_use_id" = k ∧
        v = extract_result_content (jgetD b "content" (.s "")) := by
  unfold tool_result_entries at h
  rw [List.mem_flatMap] at h
  obtain ⟨m, hm, h2⟩ := h
  by_cases hu : isType m "user" = true
  · rw [if_pos hu, List.mem_filterMap] at h2
    obtain ⟨b, hb, heq⟩ := h2
    by_cases hbt : isType b "tool_result" = true
    · rw [if_pos hbt, Option.some.injEq, Prod.mk.injEq] at heq
      exact ⟨m, hm, hu, b, hb, hbt, heq.1, heq.2.symm⟩
    · rw [if_neg hbt] at heq
      cases heq
  · rw [if_neg hu] at h2
    cases h2

theorem mem_tools_used_of {messages : List JVal} {m b : JVal}
    (hm : m ∈ messages) (ha : isType m "assistant" = true)
    (hb : b ∈ msgContent m) (hbt : isType b "tool_use" = true) :
    ({ name := jget b "name"
       input := jgetD b "input" (.obj [])
       id := jget b "id"
       timestamp := jget m "timestamp"
       result := tool_entry_result (tool_result_entries messages)
         (task_summary_entries messages) (jget b "name") (jget b "id") } : ToolEntry)
      ∈ tools_used_of messages := by
  unfold tools_used_of
  rw [List.mem_flatMap]
  refine ⟨m, hm, ?_⟩
  rw [if_pos ha, List.mem_filterMap]
  exact ⟨b, hb, by rw [if_pos hbt]⟩

theorem tools_used_of_no_assistant {messages : List JVal}
    (h : ∀ m ∈ messages, isType m "assistant" = false) :
    tools_used_of messages = [] := by
  unfold tools_used_of
  dsimp only
  generalize tool_result_entries messages = tr
  generalize task_summary_entries messages = ts
  revert h
  induction messages with
  | nil =>
    intro h
    rfl
  | cons m rest ih =>
    intro h
    rw [List.flatMap_cons]
    rw [if_neg (by rw [h m (List.mem_cons_self _ _)]; exact Bool.false_ne_true)]
    rw [List.nil_append]
    exact ih (fun m' hm' => h m' (List.mem_cons_of_mem _ hm'))

/-! ## Bounded-buffer lemmas (C1) -/

/-- Folding `deque(maxlen=N).append` keeps exactly the last `N` elements. -/
theorem foldl_push_bounded_drop (N : Nat) (msgs : List JVal) :
    ∀ buf, buf.length ≤ N →
      msgs.foldl (push_bounded N) buf = (buf ++ msgs).drop ((buf ++ msgs).length - N) := by
  induction msgs with
  | nil =>
    intro buf hbuf
    rw [List.foldl_nil, List.append_nil]
    rw [show buf.length - N = 0 from Nat.sub_eq_zero_of_le hbuf]
    rfl
  | cons x rest ih =>
    intro buf hbuf
    rw [List.foldl_cons]
    have hx : (buf ++ [x]).length = buf.length + 1 := by simp
    by_cases hlen : N < (buf ++ [x]).length
    · rw [show push_bounded N buf x = (buf ++ [x]).drop ((buf ++ [x]).length - N) from by
        unfold push_bounded
        rw [if_pos hlen]]
      have hblen : (buf ++ [x]).length = N + 1 := by omega
      have hdlen : ((buf ++ [x]).drop ((buf ++ [x]).length - N)).length ≤ N := by
        rw [List.length_drop]
        omega
      rw [ih _ hdlen]
      have h1 : (buf ++ [x]).length - N = 1 := by omega
      rw [h1]
      rw [← List.drop_append_of_le_length (by omega : 1 ≤ (buf ++ [x]).length)]
      rw [List.drop_drop]
      have harr : buf ++ [x] ++ rest = buf ++ x :: rest := by
        rw [List.append_assoc, List.singleton_append]
      rw [harr]
      congr 1
      have h2 : (buf ++ x :: rest).length = buf.length + 1 + rest.length := by
        rw [List.length_append, List.length_cons]
        omega
      have h3 : (List.drop 1 (buf ++ x :: rest)).length = buf.length + rest.length := by
        rw [List.length_drop]
        omega
      omega
    · rw [show push_bounded N buf x = buf ++ [x] from by
        unfold push_bounded
        rw [if_neg hlen]]
      rw [ih _ (by omega)]
      rw [List.append_assoc, List.singleton_append]

theorem fold_result_isSome (msgs : List JVal) :
    ∀ a : Option JVal, ((∃ m ∈ msgs, isType m "result" = true) ∨ a.isSome) →
      (msgs.foldl (fun a m => if isType m "result" then some m else a) a).isSome := by
  induction msgs with
  | nil =>
    intro a h
    rcases h with ⟨m, hm, _⟩ | h
    · cases hm
    · exact h
  | cons m rest ih =>
    intro a h
    rw [List.foldl_cons]
    by_cases hm : isType m "result" = true
    · exact ih _ (Or.inr (by rw [if_pos hm]; rfl))
    · refine ih _ ?_
      rw [if_neg hm]
      rcases h with ⟨m', hm', hr⟩ | h
      · rcases List.mem_cons.mp hm' with heq | hmem
        · exact absurd (heq ▸ hr) hm
        · exact Or.inl ⟨m', hmem, hr⟩
      · exact Or.inr h

theorem fold_result_append_last (msgs : List JVal) (a : Option JVal) (m : JVal)
    (h : isType m "result" = true) :
    (msgs ++ [m]).foldl (fun a m => if isType m "result" then some m else a) a = some m := by
  rw [List.foldl_append, List.foldl_cons, List.foldl_nil, if_pos h]

/-! ## C1 -/

/-- C1 amended: tool-use/tool-result correlation across frames holds
*within the bounded retained buffer*: whenever the execution's valid frame
count is at most `max_message_buffer` (= 1000), every truthy tool-use id
that some user frame answers with a `tool_result` block yields a
`tools_used` entry whose `result` is populated with the recorded content for
that id.  (Beyond 1000 frames the correlation is lost — see the
counterexample.) -/
theorem tool_result_correlated (lines : List (Option JVal)) (stderr : String) (i : JVal)
    (hlen : (valid_frames lines).length ≤ max_message_buffer)
    (hresf : ∃ m ∈ valid_frames lines, isType m "result" = true)
    (htruthy : jtruthy i = true)
    (huse : ∃ m ∈ valid_frames lines, isType m "assistant" = true ∧
      ∃ b ∈ msgContent m, isType b "tool_use" = true ∧ jget b "id" = some i)
    (hres : ∃ m ∈ valid_frames lines, isType m "user" = true ∧
      ∃ b ∈ msgContent m, isType b "tool_result" = true ∧ jget b "tool_use_id" = some i) :
    ∃ resp r, (handle_process_output lines 0 stderr).outcome = .ok resp ∧
      lookup_last (tool_result_entries (valid_frames lines)) (some i) = some r ∧
      ∃ e ∈ resp.tools_used, e.id = some i ∧ e.result = some r := by
  have hbuf : (lines.foldl process_line ⟨[], none, [], []⟩).message_buffer
      = valid_frames lines := by
    rw [foldl_process_line_spec]
    dsimp only
    rw [foldl_push_bounded_drop max_message_buffer _ [] (by simp)]
    rw [List.nil_append,
      show (valid_frames lines).length - max_message_buffer = 0 from
        Nat.sub_eq_zero_of_le hlen]
    exact List.drop_zero _
  have hsome : ((lines.foldl process_line ⟨[], none, [], []⟩).result).isSome := by
    rw [foldl_process_line_spec]
    exact fold_result_isSome _ _ (Or.inl hresf)
  obtain ⟨r0, hr0⟩ := Option.isSome_iff_exists.mp hsome
  obtain ⟨m2, hm2, hu2, b2, hb2, hbt2, hkey2⟩ := hres
  have hmem_tr := mem_tool_result_entries hm2 hu2 hb2 hbt2 hkey2
  obtain ⟨r, hr⟩ := Option.isSome_iff_exists.mp (lookup_last_isSome_of_mem hmem_tr)
  obtain ⟨m1, hm1, ha1, b1, hb1, hbt1, hid1⟩ := huse
  refine ⟨parse_result r0 (valid_frames lines), r, ?_, hr, ?_⟩
  · unfold handle_process_output
    dsimp only
    rw [hr0, hbuf]
    rfl
  · refine ⟨_, mem_tools_used_of hm1 ha1 hb1 hbt1, ?_, ?_⟩
    · exact hid1
    · show tool_entry_result _ _ _ (jget b1 "id") = some r
      rw [hid1]
      unfold tool_entry_result
      rw [if_pos (by
        rw [hr]
        show (otruthy (some i) && true) = true
        rw [Bool.and_true]
        exact htruthy)]
      exact hr

/-- An assistant frame invoking tool `Bash` with tool-use id `t1`. -/
def f_use : JVal :=
  .obj [("type", .s "assistant"),
        ("message", .obj [("content", .arr [.obj [("type", .s "tool_use"),
                                                  ("id", .s "t1"),
                                                  ("name", .s "Bash")]])])]

/-- A user frame carrying the matching `tool_result` for id `t1`. -/
def f_res : JVal :=
  .obj [("type", .s "user"),
        ("message", .obj [("content", .arr [.obj [("type", .s "tool_result"),
                                                  ("tool_use_id", .s "t1"),
                                                  ("content", .s "ok")]])])]

/-- A filler progress frame. -/
def f_dummy : JVal := .obj [("type", .s "progress")]

/-- The terminal result frame. -/
def f_final : JVal :=
  .obj [("type", .s "result"), ("session_id", .s "sess"), ("result", .s "done")]

/-- A 1002-frame execution: the tool_use/tool_result pair, 999 fillers, and
the terminal result frame. -/
def c1_lines : List (Option JVal) :=
  some f_use :: some f_res :: (List.replicate 999 (some f_dummy) ++ [some f_final])

theorem valid_frames_replicate {m : JVal} (n : Nat)
    (hv : validate_message_structure m = true) :
    valid_frames (List.replicate n (some m)) = List.replicate n m := by
  induction n with
  | zero => rfl
  | succ k ih =>
    rw [List.replicate_succ, valid_frames_cons_some_valid _ hv, ih, ← List.replicate_succ]

/-- C1 counterexample: in this 1002-frame execution both the tool_use frame
(id `t1`) and its matching tool_result frame are present in the stream, yet
the final `ClaudeResponse` has an *empty* `tools_used` list — the bounded
`deque(maxlen=1000)` evicted both frames before `_parse_result` scanned it,
so the claimed cross-buffer correlation fails. -/
theorem tool_correlation_lost_beyond_buffer :
    (some f_use ∈ c1_lines ∧ some f_res ∈ c1_lines) ∧
    (handle_process_output c1_lines 0 "").outcome
      = .ok (parse_result f_final (List.replicate 999 f_dummy ++ [f_final])) ∧
    (parse_result f_final (List.replicate 999 f_dummy ++ [f_final])).tools_used = [] := by
  have hvf : valid_frames c1_lines
      = f_use :: f_res :: (List.replicate 999 f_dummy ++ [f_final]) := by
    unfold c1_lines
    rw [valid_frames_cons_some_valid _ (by decide), valid_frames_cons_some_valid _ (by decide),
      valid_frames_append, valid_frames_replicate 999 (by decide),
      valid_frames_cons_some_valid _ (by decide)]
    rfl
  have hbuf : (c1_lines.foldl process_line ⟨[], none, [], []⟩).message_buffer
      = List.replicate 999 f_dummy ++ [f_final] := by
    rw [foldl_process_line_spec]
    dsimp only
    rw [foldl_push_bounded_drop max_message_buffer _ [] (by simp), List.nil_append, hvf]
    rw [show (f_use :: f_res :: (List.replicate 999 f_dummy ++ [f_final])).length
          - max_message_buffer = 2 by
      have h1 : (f_use :: f_res :: (List.replicate 999 f_dummy ++ [f_final])).length
          = 1002 := by
        rw [List.length_cons, List.length_cons, List.length_append,
          List.length_replicate, List.length_singleton]
      rw [h1]
      rfl]
    rfl
  have hresr : (c1_lines.foldl process_line ⟨[], none, [], []⟩).result = some f_final := by
    rw [foldl_process_line_spec]
    dsimp only
    rw [hvf, List.foldl_cons, List.foldl_cons,
      if_neg (by decide : ¬isType f_use "result" = true),
      if_neg (by decide : ¬isType f_res "result" = true)]
    exact fold_result_append_last _ _ _ (by decide)
  refine ⟨⟨?_, ?_⟩, ?_, ?_⟩
  · exact List.mem_cons_self _ _
  · exact List.mem_cons_of_mem _ (List.mem_cons_self _ _)
  · unfold handle_process_output
    dsimp only
    rw [hresr, hbuf]
    rfl
  · show tools_used_of _ = []
    refine tools_used_of_no_assistant (fun m hm => ?_)
    rcases List.mem_append.mp hm with hrep | hfin
    · rw [List.eq_of_mem_replicate hrep]
      decide
    · rw [List.mem_singleton.mp hfin]
      decide

/-- Witness for C1's amended theorem: a 3-frame execution (well inside the
buffer bound) where the tool result for id `t1` is correlated. -/
theorem tool_result_correlated_witness :
    ∃ resp r,
      (handle_process_output [some f_use, some f_res, some f_final] 0 "").outcome
        = .ok resp ∧
      lookup_last (tool_result_entries (valid_frames [some f_use, some f_res, some f_final]))
        (some (.s "t1")) = some r ∧
      ∃ e ∈ resp.tools_used, e.id = some (.s "t1") ∧ e.result = some r :=
  tool_result_correlated [some f_use, some f_res, some f_final] "" (.s "t1")
    (by decide) (by decide) (by decide) (by decide) (by decide)

/-! ## C5 -/

theorem get_pair_mem_zip_tail {α : Type} {l : List α} {k : Nat} {a b : α}
    (h1 : l.get? k = some a) (h2 : l.get? (k + 1) = some b) :
    (a, b) ∈ l.zip l.tail := by
  induction l generalizing k with
  | nil => cases h1
  | cons x rest ih =>
    cases k with
    | zero =>
      cases h1
      cases rest with
      | nil => cases h2
      | cons y t =>
        cases h2
        exact List.mem_cons_self _ _
    | succ k' =>
      rw [List.get?_cons_succ] at h1 h2
      have hmem := ih h1 h2
      cases rest with
      | nil => cases hmem
      | cons y t =>
        exact List.mem_cons_of_mem _ hmem

theorem mem_zip_tail_get {α : Type} {l : List α} {a b : α}
    (h : (a, b) ∈ l.zip l.tail) :
    ∃ k, l.get? k = some a ∧ l.get? (k + 1) = some b := by
  induction l with
  | nil => cases h
  | cons x rest ih =>
    cases rest with
    | nil => cases h
    | cons y t =>
      rcases List.mem_cons.mp h with heq | hmem
      · injection heq with ha hb
        exact ⟨0, by rw [ha]; rfl, by rw [hb]; rfl⟩
      · obtain ⟨k, hk1, hk2⟩ := ih hmem
        exact ⟨k + 1, by rw [List.get?_cons_succ]; exact hk1,
          by rw [List.get?_cons_succ]; exact hk2⟩

theorem mem_task_summary_entries {messages : List JVal} {k : Nat} {mk mn pb i t : JVal}
    (hk : messages.get? k = some mk) (hk1 : messages.get? (k + 1) = some mn)
    (ha1 : isType mk "assistant" = true) (ha2 : isType mn "assistant" = true)
    (hb : pb ∈ msgContent mk) (hbt : isType pb "tool_use" = true)
    (hbn : jget pb "name" = some (.s "Task")) (ht : first_text mn = some t)
    (hbi : jget pb "id" = some i) :
    (some i, t) ∈ task_summary_entries messages := by
  unfold task_summary_entries
  rw [List.mem_flatMap]
  refine ⟨(mk, mn), get_pair_mem_zip_tail hk hk1, ?_⟩
  rw [if_pos (by rw [show isType (mk, mn).2 "assistant" = true from ha2,
    show isType (mk, mn).1 "assistant" = true from ha1]; rfl)]
  rw [List.mem_filterMap]
  refine ⟨pb, hb, ?_⟩
  rw [if_pos (by
    rw [hbt, show (jget pb "name" == some (JVal.s "Task")) = true from by rw [hbn]; rfl]
    rfl)]
  rw [ht, hbi]
  rfl

theorem mem_task_summary_entries_inv {messages : List JVal} {key : Option JVal} {v : JVal}
    (h : (key, v) ∈ task_summary_entries messages) :
    ∃ j prev cur, messages.get? j = some prev ∧ messages.get? (j + 1) = some cur ∧
      isType prev "assistant" = true ∧ isType cur "assistant" = true ∧
      ∃ pb ∈ msgContent prev, isType pb "tool_use" = true ∧
        jget pb "name" = some (.s "Task") ∧ jget pb "id" = key ∧
        first_text cur = some v := by
  unfold task_summary_entries at h
  rw [List.mem_flatMap] at h
  obtain ⟨pc, hpc, h2⟩ := h
  obtain ⟨prev, cur⟩ := pc
  by_cases hcond : (isType cur "assistant" && isType prev "assistant") = true
  · rw [if_pos hcond] at h2
    rw [List.mem_filterMap] at h2
    obtain ⟨pb, hpb, heq⟩ := h2
    by_cases hcond2 : (isType pb "tool_use" && (jget pb "name" == some (JVal.s "Task"))) = true
    · rw [if_pos hcond2] at heq
      cases hft : first_text cur with
      | none =>
        rw [hft] at heq
        cases heq
      | some t =>
        rw [hft] at heq
        have heq2 : (jget pb "id", t) = (key, v) := by
          injection heq
        injection heq2 with hkey hval
        obtain ⟨j, hj1, hj2⟩ := mem_zip_tail_get hpc
        obtain ⟨hc1, hc2⟩ := Bool.and_eq_true_iff.mp hcond
        obtain ⟨hd1, hd2⟩ := Bool.and_eq_true_iff.mp hcond2
        exact ⟨j, prev, cur, hj1, hj2, hc2, hc1, pb, hpb, hd1,
          beq_iff_eq.mp hd2, hkey, by rw [hft, hval]⟩
    · rw [if_neg hcond2] at heq
      cases heq
  · rw [if_neg hcond] at h2
    cases h2

/-- C5: a delegated sub-task (`Task`) tool_use with id `i` that has no
explicit tool_result anywhere in the frames, but whose assistant frame is
immediately followed by an assistant frame containing a text block, gets
that first text block's text as its `tools_used` result (fallback map).
The id is assumed to identify a unique tool_use occurrence, as tool-use
identifiers do. -/
theorem task_fallback (result : JVal) (messages : List JVal) (k : Nat)
    (mk mn b i t : JVal)
    (hmk : messages.get? k = some mk) (ha1 : isType mk "assistant" = true)
    (hb : b ∈ msgContent mk) (hbt : isType b "tool_use" = true)
    (hbn : jget b "name" = some (.s "Task")) (hbi : jget b "id" = some i)
    (hmn : messages.get? (k + 1) = some mn) (ha2 : isType mn "assistant" = true)
    (ht : first_text mn = some t)
    (hnores : ∀ m ∈ messages, isType m "user" = true →
      ∀ bb ∈ msgContent m, isType bb "tool_result" = true →
        jget bb "tool_use_id" ≠ some i)
    (huniq : ∀ k' mk' b', messages.get? k' = some mk' → isType mk' "assistant" = true →
      b' ∈ msgContent mk' → isType b' "tool_use" = true → jget b' "id" = some i →
      k' = k) :
    ∃ e ∈ (parse_result result messages).tools_used,
      e.id = some i ∧ e.name = some (.s "Task") ∧ e.result = some t := by
  have htr : lookup_last (tool_result_entries messages) (some i) = none := by
    refine lookup_last_none_of_not_mem (fun v hv => ?_)
    obtain ⟨m, hm, hu, bb, hbb, hbbt, hkey, _⟩ := mem_tool_result_entries_inv hv
    exact hnores m hm hu bb hbb hbbt hkey
  have hts : lookup_last (task_summary_entries messages) (some i) = some t := by
    refine lookup_last_eq_of_unique (fun v hv => ?_)
      ⟨t, mem_task_summary_entries hmk hmn ha1 ha2 hb hbt hbn ht hbi⟩
    obtain ⟨j, prev, cur, hj1, hj2, hp1, hp2, pb, hpb, hpbt, hpbn, hpbi, hft⟩ :=
      mem_task_summary_entries_inv hv
    have hjk : j = k := huniq j prev pb hj1 hp1 hpb hpbt hpbi
    subst hjk
    have hcm : cur = mn := by
      rw [hj2] at hmn
      exact Option.some.inj hmn
    rw [hcm, ht] at hft
    exact (Option.some.inj hft).symm
  refine ⟨_, mem_tools_used_of (List.get?_mem hmk) ha1 hb hbt, hbi, hbn, ?_⟩
  show tool_entry_result _ _ (jget b "name") (jget b "id") = some t
  rw [hbi, hbn]
  unfold tool_entry_result
  rw [htr]
  rw [if_neg (by simp)]
  rw [if_pos (by rw [hts]; simp)]
  exact hts

/-- A `Task` tool_use frame for the C5 witness. -/
def f_task : JVal :=
  .obj [("type", .s "assistant"),
        ("message", .obj [("content", .arr [.obj [("type", .s "tool_use"),
                                                  ("id", .s "tk1"),
                                                  ("name", .s "Task")]])])]

/-- The assistant text frame immediately following it. -/
def f_text : JVal :=
  .obj [("type", .s "assistant"),
        ("message", .obj [("content", .arr [.obj [("type", .s "text"),
                                                  ("text", .s "subtask summary")]])])]

/-- Witness for C5 at a two-frame execution. -/
theorem task_fallback_witness :
    ∃ e ∈ (parse_result f_final [f_task, f_text]).tools_used,
      e.id = some (.s "tk1") ∧ e.name = some (.s "Task") ∧
        e.result = some (.s "subtask summary") := by
  refine task_fallback f_final [f_task, f_text] 0
    f_task f_text (.obj [("type", .s "tool_use"), ("id", .s "tk1"), ("name", .s "Task")])
    (.s "tk1") (.s "subtask summary")
    rfl (by decide) (by decide) (by decide) (by decide) (by decide)
    rfl (by decide) (by decide) (by decide) ?_
  intro k' mk' b' h1 h2 h3 h4 h5
  cases k' with
  | zero => rfl
  | succ k'' =>
    cases k'' with
    | zero =>
      cases h1
      have hb' := List.mem_singleton.mp (by exact h3)
      rw [hb'] at h4
      exact absurd h4 (by decide)
    | succ k3 => cases h1

/-! ## C9 -/

theorem take_line_cons_newline (rest : List Char) : take_line ('\n' :: rest) = [] := by
  unfold take_line
  rw [List.takeWhile_cons]
  simp

theorem drop_line_cons_newline (rest : List Char) : drop_line ('\n' :: rest) = rest := by
  unfold drop_line
  rw [List.dropWhile_cons]
  simp

theorem take_line_cons_other {c : Char} (rest : List Char) (h : ¬c = '\n') :
    take_line (c :: rest) = c :: take_line rest := by
  unfold take_line
  rw [List.takeWhile_cons]
  rw [if_pos (by rw [show (c == '\n') = false from beq_eq_false_iff_ne.mpr h]; rfl)]

theorem drop_line_cons_other {c : Char} (rest : List Char) (h : ¬c = '\n') :
    drop_line (c :: rest) = drop_line rest := by
  unfold drop_line
  rw [List.dropWhile_cons]
  rw [if_pos (by rw [show (c == '\n') = false from beq_eq_false_iff_ne.mpr h]; rfl)]

theorem split_buf_no_newline {l : List Char} (h : '\n' ∉ l) : split_buf l = ([], l) := by
  unfold split_buf
  rw [dif_neg h]

theorem split_buf_mem_newline {l : List Char} (h : '\n' ∈ l) :
    split_buf l = (take_line l :: (split_buf (drop_line l)).1,
      (split_buf (drop_line l)).2) := by
  conv_lhs => rw [split_buf]
  rw [dif_pos h]

theorem split_buf_cons_newline (rest : List Char) :
    split_buf ('\n' :: rest)
      = (([] : List Char) :: (split_buf rest).1, (split_buf rest).2) := by
  rw [split_buf_mem_newline (List.mem_cons_self _ _), take_line_cons_newline,
    drop_line_cons_newline]

theorem split_buf_fst_ne_nil {l : List Char} (h : '\n' ∈ l) : (split_buf l).1 ≠ [] := by
  rw [split_buf_mem_newline h]
  exact List.cons_ne_nil _ _

theorem split_buf_cons_other_of_nil {c : Char} {rest r : List Char} (hc : ¬c = '\n')
    (h : split_buf rest = ([], r)) : split_buf (c :: rest) = ([], c :: r) := by
  have hnm : '\n' ∉ rest := by
    intro hmem
    exact split_buf_fst_ne_nil hmem (by rw [h])
  have hr : rest = r := by
    have := split_buf_no_newline hnm
    rw [this] at h
    injection h with h1 h2
  have hnm2 : '\n' ∉ c :: rest := by
    intro hmem
    rcases List.mem_cons.mp hmem with heq | hmem2
    · exact hc heq.symm
    · exact hnm hmem2
  rw [split_buf_no_newline hnm2, hr]

theorem split_buf_cons_other_of_cons {c : Char} {rest s r : List Char} {ss : List (List Char)}
    (hc : ¬c = '\n') (h : split_buf rest = (s :: ss, r)) :
    split_buf (c :: rest) = ((c :: s) :: ss, r) := by
  have hmem : '\n' ∈ rest := by
    by_contra hnm
    rw [split_buf_no_newline hnm] at h
    injection h with h1 h2
    exact List.cons_ne_nil _ _ h1.symm
  have hmem2 : '\n' ∈ c :: rest := List.mem_cons_of_mem _ hmem
  rw [split_buf_mem_newline hmem2, take_line_cons_other rest hc,
    drop_line_cons_other rest hc]
  rw [split_buf_mem_newline hmem] at h
  injection h with h1 h2
  injection h1 with h3 h4
  rw [h3, h4, h2]

theorem split_buf_rest_no_newline (l : List Char) : '\n' ∉ (split_buf l).2 := by
  induction l with
  | nil =>
    rw [split_buf_no_newline (by simp)]
    simp
  | cons c rest ih =>
    by_cases hc : c = '\n'
    · subst hc
      rw [split_buf_cons_newline]
      exact ih
    · cases hsp : split_buf rest with
      | mk fst snd =>
        cases fst with
        | nil =>
          rw [split_buf_cons_other_of_nil hc hsp]
          intro hmem
          rcases List.mem_cons.mp hmem with heq | hmem2
          · exact hc heq.symm
          · rw [hsp] at ih
            exact ih hmem2
        | cons s ss =>
          rw [split_buf_cons_other_of_cons hc hsp]
          rw [hsp] at ih
          exact ih

theorem split_buf_append (w v : List Char) :
    split_buf (w ++ v)
      = ((split_buf w).1 ++ (split_buf ((split_buf w).2 ++ v)).1,
         (split_buf ((split_buf w).2 ++ v)).2) := by
  induction w with
  | nil =>
    rw [split_buf_no_newline (by simp : '\n' ∉ ([] : List Char))]
    rfl
  | cons c w' ih =>
    by_cases hc : c = '\n'
    · subst hc
      rw [show ('\n' :: w') ++ v = '\n' :: (w' ++ v) from rfl,
        split_buf_cons_newline, split_buf_cons_newline, ih]
      rfl
    · rw [show (c :: w') ++ v = c :: (w' ++ v) from rfl]
      cases hw : split_buf w' with
      | mk fstw sndw =>
        rw [hw] at ih
        dsimp only at ih
        cases fstw with
        | nil =>
          rw [split_buf_cons_other_of_nil hc hw]
          dsimp only
          rw [List.nil_append] at ih
          rw [List.nil_append,
            show ((c :: sndw) ++ v) = c :: (sndw ++ v) from rfl]
          cases hx : split_buf (sndw ++ v) with
          | mk xf xr =>
            rw [hx] at ih
            dsimp only at ih
            cases xf with
            | nil =>
              rw [split_buf_cons_other_of_nil hc ih,
                split_buf_cons_other_of_nil hc hx]
            | cons s ss =>
              rw [split_buf_cons_other_of_cons hc ih,
                split_buf_cons_other_of_cons hc hx]
        | cons a as =>
          rw [split_buf_cons_other_of_cons hc hw]
          dsimp only
          rw [List.cons_append] at ih
          rw [split_buf_cons_other_of_cons hc ih]
          rw [List.cons_append]

theorem segments_eq_split_buf (l : List Char) :
    segments l = (split_buf l).1 ++ [(split_buf l).2] := by
  induction l with
  | nil =>
    rw [split_buf_no_newline (by simp)]
    rfl
  | cons c rest ih =>
    by_cases hc : c = '\n'
    · subst hc
      have hseg : segments ('\n' :: rest) = [] :: segments rest := by
        conv_lhs => rw [segments]
        rw [if_pos rfl]
      rw [hseg, split_buf_cons_newline, ih]
      rfl
    · have hseg : segments (c :: rest)
          = match segments rest with
            | [] => [[c]]
            | sg :: ss => (c :: sg) :: ss := by
        conv_lhs => rw [segments]
        rw [if_neg hc]
      cases hw : split_buf rest with
      | mk fstw sndw =>
        rw [hw] at ih
        dsimp only at ih
        cases fstw with
        | nil =>
          rw [List.nil_append] at ih
          rw [split_buf_cons_other_of_nil hc hw, hseg, ih]
          rfl
        | cons s ss =>
          rw [split_buf_cons_other_of_cons hc hw, hseg, ih]
          rfl

theorem spec_lines_eq_split_buf (l : List Char) :
    spec_lines l = (split_buf l).1.map strip
      ++ (if (split_buf l).2 = [] then [] else [strip (split_buf l).2]) := by
  unfold spec_lines
  rw [segments_eq_split_buf]
  dsimp only
  rw [List.getLast?_concat]
  by_cases hsnd : (split_buf l).2 = []
  · rw [if_pos (by rw [hsnd]), if_pos hsnd, List.dropLast_concat, List.append_nil]
  · rw [if_neg (fun hh => hsnd (Option.some.inj hh)), if_neg hsnd, List.map_append]
    rfl

theorem read_aux_spec (chunks : List (List Char)) :
    ∀ buf, '\n' ∉ buf → (∀ c ∈ chunks, c ≠ []) →
      read_aux chunks buf = spec_lines (buf ++ chunks.flatten) := by
  induction chunks with
  | nil =>
    intro buf hb _
    rw [List.flatten_nil, List.append_nil]
    rw [show read_aux [] buf = if buf.isEmpty then [] else [strip buf] from rfl]
    rw [spec_lines_eq_split_buf, split_buf_no_newline hb]
    dsimp only
    by_cases hbe : buf = []
    · rw [if_pos (List.isEmpty_iff.mpr hbe), if_pos hbe]
      rfl
    · rw [if_neg (fun hh => hbe (List.isEmpty_iff.mp hh)), if_neg hbe]
      rfl
  | cons c cs ih =>
    intro buf hb hc
    have hcne : c ≠ [] := hc c (List.mem_cons_self _ _)
    rw [show read_aux (c :: cs) buf
        = if c.isEmpty then (if buf.isEmpty then [] else [strip buf])
          else (split_buf (buf ++ c)).1.map strip
            ++ read_aux cs (split_buf (buf ++ c)).2 from rfl]
    rw [if_neg (fun hh => hcne (List.isEmpty_iff.mp hh))]
    rw [ih _ (split_buf_rest_no_newline (buf ++ c))
      (fun c' hc' => hc c' (List.mem_cons_of_mem _ hc'))]
    rw [List.flatten_cons, show buf ++ (c ++ cs.flatten) = (buf ++ c) ++ cs.flatten from
      (List.append_assoc buf c cs.flatten).symm]
    rw [spec_lines_eq_split_buf ((buf ++ c) ++ cs.flatten),
      spec_lines_eq_split_buf ((split_buf (buf ++ c)).2 ++ cs.flatten),
      split_buf_append (buf ++ c) cs.flatten]
    dsimp only
    rw [List.map_append, List.append_assoc]

/-- C9: `_read_stream_bounded` yields, for any partition of the byte stream
into non-empty read chunks, exactly the newline-separated segments of the
concatenated stream in order, each stripped of surrounding whitespace, with
a final non-newline-terminated segment flushed at stream end — the yielded
line sequence depends only on the concatenation, not on where the chunk
boundaries fall. -/
theorem read_stream_bounded_spec (chunks : List (List Char))
    (h : ∀ c ∈ chunks, c ≠ []) :
    read_stream_bounded chunks = spec_lines chunks.flatten := by
  unfold read_stream_bounded
  rw [read_aux_spec chunks [] (by simp) h]
  rfl

/-- Witness for C9: a concrete two-chunk stream whose newline falls inside
the first chunk; the reader yields the two stripped lines. -/
theorem read_stream_bounded_spec_witness :
    read_stream_bounded [['a', 'b', '\n', ' '], ['c', ' ']]
      = spec_lines ([['a', 'b', '\n', ' '], ['c', ' ']] : List (List Char)).flatten := by
  have h := read_stream_bounded_spec [['a', 'b', '\n', ' '], ['c', ' ']] (by decide)
  exact h
